/-
Verification of the koyori durable FIFO queue (jungnoh/koyori).

This file shallowly embeds the Go sources (`queue.go` together with the
segment implementation that `queue.go` is written against: the variant of
`segment.go` carrying a per-segment `capacity` field, a 4-byte little-endian
capacity header, `addMany` and `removeMany`) and proves properties of the
embedding.

Modelling conventions:
* a file's contents are a `List Nat` of byte values; `os.File` append writes
  become list appends, `Sync`/`Close` do not change contents and are dropped;
* the folder is an association list from segment number to file contents;
  filenames (`%05d.queue` and the parsing regex) are abstracted to the
  numeric key itself;
* machine integers are modelled as `Nat`; every quantity the code keeps
  non-negative stays a `Nat`, and 32-bit truncation is explicit (`% 2^32`
  inside `u32le`);
* the host codec (`Converter`) is a pair of functions
  `mar : α → Option (List Nat)` and `unm : List Nat → Option α`
  (`none` = codec error);
* Go's aliasing of `firstSegment`/`lastSegment` pointers (they point to the
  same segment object exactly when their segment numbers agree, which the
  queue code maintains) is rendered by updating both fields whenever the
  shared segment is written through either one.
-/
import Mathlib

namespace Koyori

/-! ## Little-endian 32-bit words (encoding/binary) -/

/-- `binary.LittleEndian.PutUint32` of `uint32(n)`: the four bytes of
`n % 2^32`, least significant first. -/
def u32le (n : Nat) : List Nat :=
  [n % 256, n / 256 % 256, n / 65536 % 256, n / 16777216 % 256]

/-- `binary.LittleEndian.Uint32` on four byte values. -/
def leU32 (b0 b1 b2 b3 : Nat) : Nat :=
  b0 + 256 * b1 + 65536 * b2 + 16777216 * b3

theorem leU32_u32le (n : Nat) (h : n < 4294967296) :
    leU32 (n % 256) (n / 256 % 256) (n / 65536 % 256) (n / 16777216 % 256) = n := by
  unfold leU32; omega

/-! ## Segment file frames (`segment.load` scan loop) -/

/-- Failure modes of `segment.load`, one per distinct error return. -/
inductive LoadErr where
  /-- fewer than 4 bytes where the capacity header is read -/
  | shortHeader
  /-- a short read inside a frame (length word or payload) -/
  | shortRead
  /-- "Found deletion marker, but no objects are left" -/
  | tombstoneNoObjects
  /-- `converter.Unmarshal` failed -/
  | unmarshalFail
deriving DecidableEq, Repr

variable {α : Type}

/-- The frame scan loop of `segment.load`: read a 4-byte length word
(clean EOF stops the scan, a partial word is an error); a zero length pops
the front live object and counts a removal, a positive length `L` reads an
`L`-byte payload and unmarshals it. `objs`/`rc` accumulate
`s.objects`/`s.removeCount`. -/
def parseFrames (unm : List Nat → Option α) :
    List Nat → List α → Nat → Except LoadErr (List α × Nat)
  | [], objs, rc => .ok (objs, rc)
  | [_], _, _ => .error .shortRead
  | [_, _], _, _ => .error .shortRead
  | [_, _, _], _, _ => .error .shortRead
  | b0 :: b1 :: b2 :: b3 :: rest, objs, rc =>
    if leU32 b0 b1 b2 b3 = 0 then
      match objs with
      | [] => .error .tombstoneNoObjects
      | _ :: tl => parseFrames unm rest tl (rc + 1)
    else if leU32 b0 b1 b2 b3 ≤ rest.length then
      match unm (rest.take (leU32 b0 b1 b2 b3)) with
      | none => .error .unmarshalFail
      | some obj =>
        parseFrames unm (rest.drop (leU32 b0 b1 b2 b3)) (objs ++ [obj]) rc
    else .error .shortRead
termination_by l _ _ => l.length
decreasing_by
  · simp; omega
  · simp [List.length_drop]; omega

/-- Fuel-driven structural twin of `parseFrames` (used to evaluate concrete
runs; `parseFramesF_eq` identifies it with `parseFrames` at sufficient
fuel). -/
def parseFramesF (unm : List Nat → Option α) :
    Nat → List Nat → List α → Nat → Except LoadErr (List α × Nat)
  | _, [], objs, rc => .ok (objs, rc)
  | _, [_], _, _ => .error .shortRead
  | _, [_, _], _, _ => .error .shortRead
  | _, [_, _, _], _, _ => .error .shortRead
  | 0, _ :: _ :: _ :: _ :: _, _, _ => .error .shortRead
  | fuel + 1, b0 :: b1 :: b2 :: b3 :: rest, objs, rc =>
    if leU32 b0 b1 b2 b3 = 0 then
      match objs with
      | [] => .error .tombstoneNoObjects
      | _ :: tl => parseFramesF unm fuel rest tl (rc + 1)
    else if leU32 b0 b1 b2 b3 ≤ rest.length then
      match unm (rest.take (leU32 b0 b1 b2 b3)) with
      | none => .error .unmarshalFail
      | some obj =>
        parseFramesF unm fuel (rest.drop (leU32 b0 b1 b2 b3)) (objs ++ [obj]) rc
    else .error .shortRead

/-! ## Segments (`segment.go`, capacity-header variant) -/

/-- In-memory segment state plus the contents of its file.  The open file
handle, the mutex and the back-pointer to the options are not modelled;
`folderPath` and the converter are supplied externally. -/
structure Segment (α : Type) where
  capacity : Nat
  segmentNumber : Nat
  objects : List α
  removeCount : Nat
  file : List Nat
deriving DecidableEq, Repr

namespace Segment

/-- `segment.count()` -/
def count (s : Segment α) : Nat := s.objects.length

/-- `segment.countOnDisk()` -/
def countOnDisk (s : Segment α) : Nat := s.objects.length + s.removeCount

/-- `segment.addMany`: per item, marshal, write the little-endian length
word then the payload, append the item to `objects`.  A marshal failure
aborts the batch, keeping the state written so far (`false` = error
returned).  The `AlwaysFlush` fsync has no effect on file contents. -/
def addMany (mar : α → Option (List Nat)) : Segment α → List α → Bool × Segment α
  | s, [] => (true, s)
  | s, x :: rest =>
    match mar x with
    | none => (false, s)
    | some buf =>
      addMany mar
        { s with objects := s.objects ++ [x],
                 file := s.file ++ u32le buf.length ++ buf } rest

/-- `segment.add` is `addMany` of a singleton batch. -/
def add (mar : α → Option (List Nat)) (s : Segment α) (x : α) : Bool × Segment α :=
  addMany mar s [x]

/-- `segment.remove`: `none` is `errEmptySegment`; otherwise pop the front
live object, write one tombstone frame, bump `removeCount`. -/
def remove (s : Segment α) : Option (α × Segment α) :=
  match s.objects with
  | [] => none
  | x :: rest =>
    some (x, { s with objects := rest,
                      file := s.file ++ [0, 0, 0, 0],
                      removeCount := s.removeCount + 1 })

/-- `segment.removeMany`: `none` is `errEmptySegment`; otherwise pop the
front `min count (objects.length)` live objects, write that many tombstone
frames as one contiguous block of zero bytes, and add their number to
`removeCount`. -/
def removeMany (s : Segment α) (count : Nat) : Option (List α × Segment α) :=
  match s.objects with
  | [] => none
  | _ :: _ =>
    let k := min count s.objects.length
    some (s.objects.take k,
      { s with objects := s.objects.drop k,
               file := s.file ++ List.replicate (4 * k) 0,
               removeCount := s.removeCount + k })

/-- `newSegment`: create (truncate) the file and write the capacity as a
4-byte little-endian header. -/
def newSegment (capacity segmentNumber : Nat) : Segment α :=
  { capacity, segmentNumber, objects := [], removeCount := 0, file := u32le capacity }

/-- `segment.load` (and hence `readSegment`): read the 4-byte capacity
header, then scan the frames reconstructing `objects`/`removeCount`; the
file is then reopened for append with contents unchanged. -/
def load (unm : List Nat → Option α) (segmentNumber : Nat) (file : List Nat) :
    Except LoadErr (Segment α) :=
  match file with
  | b0 :: b1 :: b2 :: b3 :: rest =>
    match parseFrames unm rest [] 0 with
    | .error e => .error e
    | .ok (objs, rc) =>
      .ok { capacity := leU32 b0 b1 b2 b3, segmentNumber,
            objects := objs, removeCount := rc, file }
  | _ => .error .shortHeader

/-- Structural twin of `load` via `parseFramesF` (see `Segment.loadF_eq`). -/
def loadF (unm : List Nat → Option α) (segmentNumber : Nat) (file : List Nat) :
    Except LoadErr (Segment α) :=
  match file with
  | b0 :: b1 :: b2 :: b3 :: rest =>
    match parseFramesF unm rest.length rest [] 0 with
    | .error e => .error e
    | .ok (objs, rc) =>
      .ok { capacity := leU32 b0 b1 b2 b3, segmentNumber,
            objects := objs, removeCount := rc, file }
  | _ => .error .shortHeader

end Segment

/-! ## The folder (directory of segment files) -/

/-- Directory contents: pairs of segment number and file contents. -/
abbrev Folder := List (Nat × List Nat)

/-- Look up the file of segment `n`. -/
def getFile (fs : Folder) (n : Nat) : Option (List Nat) :=
  match fs with
  | [] => none
  | (m, d) :: rest => if m = n then some d else getFile rest n

/-- Write (create or replace) the file of segment `n`. -/
def setFile (fs : Folder) (n : Nat) (d : List Nat) : Folder :=
  match fs with
  | [] => [(n, d)]
  | (m, e) :: rest => if m = n then (n, d) :: rest else (m, e) :: setFile rest n d

/-- `os.Remove` of segment `n`'s file. -/
def removeFile (fs : Folder) (n : Nat) : Folder :=
  fs.filter (fun p => p.1 ≠ n)

/-! ## The queue (`queue.go`) -/

/-- Error kinds surfaced by queue operations. `empty` is `ErrEmpty`; the
remaining kinds stand for the wrapped codec/filesystem/corruption errors.
`fuel` marks non-termination of the Go `EnqueueMany` loop (reachable only
with `MaxObjectsPerSegment = 0`). -/
inductive QErr where
  | empty
  | marshal
  | corrupt
  | io
  | fuel
deriving DecidableEq, Repr

/-- The queue: options (`MaxObjectsPerSegment`; folder path and file mode
are abstracted away, the converter is passed to each operation), the folder
contents of all segments other than the two active ones, the in-memory
`firstSegment` and `lastSegment` (whose files live inside them), and
`segmentNumber`. -/
structure Queue (α : Type) where
  maxObjectsPerSegment : Nat
  folder : Folder
  first : Segment α
  last : Segment α
  segmentNumber : Nat
deriving DecidableEq, Repr

namespace Queue

/-- `queue.segmentCount()` -/
def segmentCount (q : Queue α) : Nat :=
  q.last.segmentNumber - q.first.segmentNumber + 1

/-- Writing through the `firstSegment` pointer: when the two pointers alias
(equal segment numbers), the write is seen through `lastSegment` too. -/
def setFirst (q : Queue α) (s : Segment α) : Queue α :=
  if q.first.segmentNumber = q.last.segmentNumber then { q with first := s, last := s }
  else { q with first := s }

/-- Writing through the `lastSegment` pointer, see `setFirst`. -/
def setLast (q : Queue α) (s : Segment α) : Queue α :=
  if q.first.segmentNumber = q.last.segmentNumber then { q with first := s, last := s }
  else { q with last := s }

/-- `queue.addSegmentLocked`: when more than one segment is active, close
the old tail (its file remains on disk, so it moves into the folder; when
head and tail alias the shared segment stays open as the head and its file
stays with it); then create the new tail numbered `segmentNumber + 1`. -/
def addSegmentLocked (q : Queue α) : Queue α :=
  let folder :=
    if 1 < q.segmentCount then setFile q.folder q.last.segmentNumber q.last.file
    else q.folder
  let s : Segment α := Segment.newSegment q.maxObjectsPerSegment (q.segmentNumber + 1)
  { q with folder := folder, segmentNumber := q.segmentNumber + 1, last := s }

/-- `queue.closeFullFirstSegment`: delete the head's file (`deleteSegment`),
then case on `segmentCount()`: 1 — create a fresh segment numbered
`segmentNumber + 1`, it becomes head and tail; 2 — the tail becomes the
head; otherwise — `readSegment` number `first.segmentNumber + 1` from disk,
it becomes the head (and, being active, its file leaves the folder).  A
missing or unparsable file is the wrapped error, with the partially mutated
state kept. -/
def closeFullFirstSegment (unm : List Nat → Option α) (q : Queue α) :
    Option QErr × Queue α :=
  if q.segmentCount = 1 then
    let s : Segment α := Segment.newSegment q.maxObjectsPerSegment (q.segmentNumber + 1)
    (none, { q with segmentNumber := q.segmentNumber + 1, first := s, last := s })
  else if q.segmentCount = 2 then
    (none, { q with first := q.last })
  else
    match getFile q.folder (q.first.segmentNumber + 1) with
    | none => (some .io, q)
    | some f =>
      match Segment.load unm (q.first.segmentNumber + 1) f with
      | .error _ => (some .corrupt, q)
      | .ok s =>
        (none, { q with first := s,
                        folder := removeFile q.folder (q.first.segmentNumber + 1) })

/-- Structural twin of `closeFullFirstSegment` via `Segment.loadF`. -/
def closeFullFirstSegmentF (unm : List Nat → Option α) (q : Queue α) :
    Option QErr × Queue α :=
  if q.segmentCount = 1 then
    let s : Segment α := Segment.newSegment q.maxObjectsPerSegment (q.segmentNumber + 1)
    (none, { q with segmentNumber := q.segmentNumber + 1, first := s, last := s })
  else if q.segmentCount = 2 then
    (none, { q with first := q.last })
  else
    match getFile q.folder (q.first.segmentNumber + 1) with
    | none => (some .io, q)
    | some f =>
      match Segment.loadF unm (q.first.segmentNumber + 1) f with
      | .error _ => (some .corrupt, q)
      | .ok s =>
        (none, { q with first := s,
                        folder := removeFile q.folder (q.first.segmentNumber + 1) })

/-- `queue.Enqueue`: roll over first when the tail has reached its
capacity on disk, then `tail.add(item)`. -/
def enqueue (mar : α → Option (List Nat)) (q : Queue α) (x : α) :
    Option QErr × Queue α :=
  let q := if q.last.capacity ≤ q.last.countOnDisk then q.addSegmentLocked else q
  let r := q.last.add mar x
  ((if r.1 then none else some .marshal), q.setLast r.2)

/-- The `enqueueCount` computed in each `queue.EnqueueMany` iteration:
`min (len items) (capacity - countOnDisk)` (the Go `int` subtraction is
never negative on reachable states; `Nat` subtraction clamps it to 0 with
the same control flow). -/
def enqueueCount (q : Queue α) (items : List α) : Nat :=
  min items.length (q.last.capacity - q.last.countOnDisk)

/-- The `queue.EnqueueMany` loop body: take a prefix the tail has room for,
append it, then roll over when the tail has reached capacity; repeat while
items remain.  `fuel` bounds the iteration count; the Go loop diverges when
`MaxObjectsPerSegment = 0`, which `fuel = 0` renders as the `fuel` error,
and otherwise terminates within the fuel `enqueueMany` supplies. -/
def enqueueManyLoop (mar : α → Option (List Nat)) :
    Nat → Queue α → List α → Option QErr × Queue α
  | 0, q, _ => (some .fuel, q)
  | _ + 1, q, [] => (none, q)
  | fuel + 1, q, x :: rest =>
    let items := x :: rest
    let k := q.enqueueCount items
    let r := if 0 < k then q.last.addMany mar (items.take k) else (true, q.last)
    let q := q.setLast r.2
    if r.1 then
      let items := items.drop k
      let q := if q.last.capacity ≤ q.last.countOnDisk then q.addSegmentLocked else q
      enqueueManyLoop mar fuel q items
    else (some .marshal, q)

/-- `queue.EnqueueMany`. -/
def enqueueMany (mar : α → Option (List Nat)) (q : Queue α) (items : List α) :
    Option QErr × Queue α :=
  enqueueManyLoop mar (2 * items.length + 2) q items

/-- `queue.Dequeue`: `head.remove()`, translating `errEmptySegment` to
`ErrEmpty`; when the head became empty and has reached its capacity on
disk, advance the head before returning the popped item (an advance failure
is returned alongside the item, as in the Go code). -/
def dequeue (unm : List Nat → Option α) (q : Queue α) :
    (Option α × Option QErr) × Queue α :=
  match q.first.remove with
  | none => ((none, some .empty), q)
  | some (x, s) =>
    let q := q.setFirst s
    if 0 < q.first.count then ((some x, none), q)
    else if q.first.capacity ≤ q.first.countOnDisk then
      match q.closeFullFirstSegment unm with
      | (some e, q2) => ((some x, some e), q2)
      | (none, q2) => ((some x, none), q2)
    else ((some x, none), q)

/-- Structural twin of `dequeue` via `closeFullFirstSegmentF`. -/
def dequeueF (unm : List Nat → Option α) (q : Queue α) :
    (Option α × Option QErr) × Queue α :=
  match q.first.remove with
  | none => ((none, some .empty), q)
  | some (x, s) =>
    let q := q.setFirst s
    if 0 < q.first.count then ((some x, none), q)
    else if q.first.capacity ≤ q.first.countOnDisk then
      match q.closeFullFirstSegmentF unm with
      | (some e, q2) => ((some x, some e), q2)
      | (none, q2) => ((some x, none), q2)
    else ((some x, none), q)

/-- The `queue.DequeueMany` accumulation loop: repeatedly
`head.removeMany(count)`; `errEmptySegment` breaks; a batch that leaves
`count` unsatisfied on a head at capacity advances the head and continues. -/
def dequeueManyLoop (unm : List Nat → Option α) (q : Queue α) (count : Nat)
    (acc : List α) : Except QErr (List α) × Queue α :=
  match q.first.removeMany count with
  | none => (.ok acc, q)
  | some (removed, s) =>
    let q1 := q.setFirst s
    if count - removed.length = 0 ∨ removed.length = 0 ∨
        s.countOnDisk < s.capacity then
      (.ok (acc ++ removed), q1)
    else
      match q1.closeFullFirstSegment unm with
      | (some e, q2) => (.error e, q2)
      | (none, q2) => dequeueManyLoop unm q2 (count - removed.length) (acc ++ removed)
termination_by count
decreasing_by omega

/-- `queue.DequeueMany`: run the loop, then advance the head once more when
it is at capacity on disk (note: with no check that it is drained), and
return the concatenated results; any advance failure returns the empty
slice with the error. -/
def dequeueMany (unm : List Nat → Option α) (q : Queue α) (count : Nat) :
    (List α × Option QErr) × Queue α :=
  match dequeueManyLoop unm q count [] with
  | (.error e, q1) => (([], some e), q1)
  | (.ok acc, q1) =>
    if q1.first.capacity ≤ q1.first.countOnDisk then
      match q1.closeFullFirstSegment unm with
      | (some e, q2) => (([], some e), q2)
      | (none, q2) => ((acc, none), q2)
    else ((acc, none), q1)

/-- Fuel-driven structural twin of `dequeueManyLoop`
(see `Queue.dequeueManyLoopF_eq`). -/
def dequeueManyLoopF (unm : List Nat → Option α) :
    Nat → Queue α → Nat → List α → Except QErr (List α) × Queue α
  | 0, q, _, acc => (.ok acc, q)
  | fuel + 1, q, count, acc =>
    match q.first.removeMany count with
    | none => (.ok acc, q)
    | some (removed, s) =>
      if count - removed.length = 0 ∨ removed.length = 0 ∨
          s.countOnDisk < s.capacity then
        (.ok (acc ++ removed), q.setFirst s)
      else
        match (q.setFirst s).closeFullFirstSegmentF unm with
        | (some e, q2) => (.error e, q2)
        | (none, q2) =>
          dequeueManyLoopF unm fuel q2 (count - removed.length) (acc ++ removed)

/-- Structural twin of `dequeueMany` (see `Queue.dequeueManyF_eq`). -/
def dequeueManyF (unm : List Nat → Option α) (q : Queue α) (count : Nat) :
    (List α × Option QErr) × Queue α :=
  match dequeueManyLoopF unm (count + 1) q count [] with
  | (.error e, q1) => (([], some e), q1)
  | (.ok acc, q1) =>
    if q1.first.capacity ≤ q1.first.countOnDisk then
      match q1.closeFullFirstSegmentF unm with
      | (some e, q2) => (([], some e), q2)
      | (none, q2) => ((acc, none), q2)
    else ((acc, none), q1)

/-- The folder contents after `queue.Close`: closing writes nothing, so the
disk holds the middle files plus the head's and the tail's. -/
def folderAfterClose (q : Queue α) : Folder :=
  setFile (setFile q.folder q.first.segmentNumber q.first.file)
    q.last.segmentNumber q.last.file

/-- The error returned by `queue.Close`: it closes `firstSegment` and then
`lastSegment` unconditionally, so when the two alias the second close hits
an already-closed file and errors. -/
def closeResult (q : Queue α) : Option QErr :=
  if q.first.segmentNumber = q.last.segmentNumber then some .io else none

end Queue

/-- `queue.loadSegmentRanges`: fold over the directory computing the
minimum and maximum segment number and the file count, starting from
(`math.MaxInt32`, 0, 0). -/
def loadSegmentRanges (fs : Folder) : Nat × Nat × Nat :=
  fs.foldl (fun acc p => (min acc.1 p.1, max acc.2.1 p.1, acc.2.2 + 1))
    (2147483647, 0, 0)

/-- `queue.load` / `NewQueue`: an empty folder creates segment 1; one file
becomes both head and tail; otherwise the minimum-numbered file is loaded
as head and the maximum-numbered one as tail (their files become active and
leave the folder; the middles stay on disk untouched). -/
def loadQueue (unm : List Nat → Option α) (mo : Nat) (fs : Folder) :
    Except QErr (Queue α) :=
  let r := loadSegmentRanges fs
  if r.2.2 = 0 then
    let s : Segment α := Segment.newSegment mo 1
    .ok ⟨mo, fs, s, s, 1⟩
  else if r.2.2 = 1 then
    match getFile fs r.1 with
    | none => .error .io
    | some f =>
      match Segment.load unm r.1 f with
      | .error _ => .error .corrupt
      | .ok s => .ok ⟨mo, removeFile fs r.1, s, s, r.1⟩
  else
    match getFile fs r.1 with
    | none => .error .io
    | some ff =>
      match Segment.load unm r.1 ff with
      | .error _ => .error .corrupt
      | .ok sf =>
        match getFile fs r.2.1 with
        | none => .error .io
        | some fl =>
          match Segment.load unm r.2.1 fl with
          | .error _ => .error .corrupt
          | .ok sl =>
            .ok ⟨mo, removeFile (removeFile fs r.1) r.2.1, sf, sl, r.2.1⟩

/-- Structural twin of `loadQueue` via `Segment.loadF` (see `loadQueueF_eq`). -/
def loadQueueF (unm : List Nat → Option α) (mo : Nat) (fs : Folder) :
    Except QErr (Queue α) :=
  let r := loadSegmentRanges fs
  if r.2.2 = 0 then
    let s : Segment α := Segment.newSegment mo 1
    .ok ⟨mo, fs, s, s, 1⟩
  else if r.2.2 = 1 then
    match getFile fs r.1 with
    | none => .error .io
    | some f =>
      match Segment.loadF unm r.1 f with
      | .error _ => .error .corrupt
      | .ok s => .ok ⟨mo, removeFile fs r.1, s, s, r.1⟩
  else
    match getFile fs r.1 with
    | none => .error .io
    | some ff =>
      match Segment.loadF unm r.1 ff with
      | .error _ => .error .corrupt
      | .ok sf =>
        match getFile fs r.2.1 with
        | none => .error .io
        | some fl =>
          match Segment.loadF unm r.2.1 fl with
          | .error _ => .error .corrupt
          | .ok sl =>
            .ok ⟨mo, removeFile (removeFile fs r.1) r.2.1, sf, sl, r.2.1⟩

/-- The queue `NewQueue` builds over an empty folder. -/
def freshQueue (mo : Nat) : Queue α :=
  ⟨mo, [], Segment.newSegment mo 1, Segment.newSegment mo 1, 1⟩

/-! ## Observation layer -/

/-- The objects a segment file replays to (what an untouched middle file on
disk holds; the segment-number argument of `Segment.load` does not affect
the replay). -/
def parsedObjs (unm : List Nat → Option α) (f : List Nat) : List α :=
  match Segment.load unm 0 f with
  | .ok s => s.objects
  | .error _ => []

/-- All live (enqueued, not yet dequeued) items of the queue in FIFO order:
the head's, then those of the middle files on disk, then the tail's (when
the tail is distinct from the head). -/
def Queue.liveItems (unm : List Nat → Option α) (q : Queue α) : List α :=
  if q.first.segmentNumber = q.last.segmentNumber then q.first.objects
  else q.first.objects ++ (q.folder.map fun p => parsedObjs unm p.2).flatten ++ q.last.objects

/-- A well-behaved host codec: marshalling always succeeds with a non-empty
payload shorter than 2^32 bytes that unmarshals back to the item (the spec
requires non-empty representations; the length bound is the `uint32` length
word). -/
def GoodMar (mar : α → Option (List Nat)) (unm : List Nat → Option α) : Prop :=
  ∀ x, ∃ b, mar x = some b ∧ 1 ≤ b.length ∧ b.length < 4294967296 ∧ unm b = some x

/-- A single-item queue operation. -/
inductive Act (α : Type) where
  | enq (x : α)
  | deq
deriving DecidableEq, Repr

/-- Run a list of single-item operations, collecting the items returned by
the successful `Dequeue` calls, in order. -/
def runTrace (mar : α → Option (List Nat)) (unm : List Nat → Option α) :
    Queue α → List (Act α) → Queue α × List α
  | q, [] => (q, [])
  | q, .enq x :: rest => runTrace mar unm (q.enqueue mar x).2 rest
  | q, .deq :: rest =>
    let r := q.dequeue unm
    let t := runTrace mar unm r.2 rest
    (t.1, (match r.1 with
           | (some x, none) => [x]
           | _ => []) ++ t.2)

/-- The items a list of operations enqueues, in order. -/
def enqueuedOf : List (Act α) → List α
  | [] => []
  | .enq x :: rest => x :: enqueuedOf rest
  | .deq :: rest => enqueuedOf rest

/-! ## Logical frames -/

/-- A logical frame of the segment file format. -/
inductive Frame where
  | item (payload : List Nat)
  | tomb
deriving DecidableEq, Repr

/-- The bytes of one frame: a little-endian length word then the payload,
or the four-zero-byte tombstone. -/
def encFrame : Frame → List Nat
  | .item b => u32le b.length ++ b
  | .tomb => [0, 0, 0, 0]

/-- The bytes of a frame sequence. -/
def encFrames (fs : List Frame) : List Nat := (fs.map encFrame).flatten

/-- Replay of a frame list at the payload level: an item frame appends its
payload to the live list, a tombstone pops the front live payload (`none`
when none is left — the excess-tombstone corruption) and counts a
removal. -/
def framesReplay : List Frame → List (List Nat) → Nat → Option (List (List Nat) × Nat)
  | [], live, rc => some (live, rc)
  | .item b :: fs, live, rc => framesReplay fs (live ++ [b]) rc
  | .tomb :: fs, live, rc =>
    match live with
    | [] => none
    | _ :: tl => framesReplay fs tl (rc + 1)

/-- A concrete well-behaved codec on `Nat` used for concrete runs:
`n` marshals to the single byte value `n + 1` (non-empty, and never the
tombstone length zero). -/
def mar1 (n : Nat) : Option (List Nat) := some [n + 1]

/-- The inverse of `mar1`. -/
def unm1 (l : List Nat) : Option Nat :=
  match l with
  | [b + 1] => some b
  | _ => none

/-! ## The queue invariant -/

/-- The parts of the queue invariant that hold at operation boundaries and
also at the intermediate states inside a dequeue where a drained head is
about to be advanced: segment-number discipline (tail is the largest
number, head the smallest, the two in-memory segments alias exactly when
their numbers agree), the folder holding exactly the middle files in
ascending order, replay of the head's and tail's files reproducing the
in-memory state, capacity bounds (positive, below 2^32 via `mo_lt` for
newly created segments, on-disk count at most capacity), every non-tail
segment full on disk, tombstones confined to the head, and every middle
file replaying to a full untombstoned segment. -/
structure WFQ0 (unm : List Nat → Option α) (q : Queue α) : Prop where
  mo_pos : 1 ≤ q.maxObjectsPerSegment
  mo_lt : q.maxObjectsPerSegment < 4294967296
  seg_le : q.first.segmentNumber ≤ q.last.segmentNumber
  alias_eq : q.first.segmentNumber = q.last.segmentNumber → q.first = q.last
  segnum : q.segmentNumber = q.last.segmentNumber
  folder_keys : q.folder.map Prod.fst =
    List.range' (q.first.segmentNumber + 1)
      (q.last.segmentNumber - q.first.segmentNumber - 1)
  first_load : Segment.load unm q.first.segmentNumber q.first.file = .ok q.first
  last_load : Segment.load unm q.last.segmentNumber q.last.file = .ok q.last
  first_cap_pos : 1 ≤ q.first.capacity
  last_cap_pos : 1 ≤ q.last.capacity
  first_le : q.first.countOnDisk ≤ q.first.capacity
  last_le : q.last.countOnDisk ≤ q.last.capacity
  first_full_of_ne : q.first.segmentNumber ≠ q.last.segmentNumber →
    q.first.capacity ≤ q.first.countOnDisk
  last_rc : q.first.segmentNumber ≠ q.last.segmentNumber → q.last.removeCount = 0
  middles : ∀ p ∈ q.folder, ∃ s : Segment α, Segment.load unm p.1 p.2 = .ok s ∧
    s.removeCount = 0 ∧ s.objects.length = s.capacity ∧ 1 ≤ s.capacity

/-- The full queue invariant: `WFQ0` plus the fact that a drained head
never lingers (whenever the head is empty it is not yet full on disk, the
code having advanced it otherwise). -/
structure WFQ (unm : List Nat → Option α) (q : Queue α)
    extends WFQ0 unm q : Prop where
  first_empty_notfull : q.first.objects = [] →
    q.first.countOnDisk < q.first.capacity

/-! ## Basic lemmas -/

theorem loadQueue_nil (unm : List Nat → Option α) (mo : Nat) :
    loadQueue unm mo [] = .ok (freshQueue mo) := rfl

theorem parseFrames_nil (unm : List Nat → Option α) (objs : List α) (rc : Nat) :
    parseFrames unm [] objs rc = .ok (objs, rc) := by
  simp [parseFrames]

/-- One unfolding of the scan loop on a whole length word. -/
theorem parseFrames_cons4 (unm : List Nat → Option α) (b0 b1 b2 b3 : Nat)
    (rest : List Nat) (objs : List α) (rc : Nat) :
    parseFrames unm (b0 :: b1 :: b2 :: b3 :: rest) objs rc =
      if leU32 b0 b1 b2 b3 = 0 then
        match objs with
        | [] => .error .tombstoneNoObjects
        | _ :: tl => parseFrames unm rest tl (rc + 1)
      else if leU32 b0 b1 b2 b3 ≤ rest.length then
        match unm (rest.take (leU32 b0 b1 b2 b3)) with
        | none => .error .unmarshalFail
        | some obj =>
          parseFrames unm (rest.drop (leU32 b0 b1 b2 b3)) (objs ++ [obj]) rc
      else .error .shortRead := by
  rw [parseFrames.eq_def]

/-- Scanning an item frame appends the unmarshalled item. -/
theorem parseFrames_item (unm : List Nat → Option α) {b : List Nat} {x : α}
    (hunm : unm b = some x) (hlen : 1 ≤ b.length) (hlt : b.length < 4294967296)
    (g : List Nat) (objs : List α) (rc : Nat) :
    parseFrames unm (u32le b.length ++ (b ++ g)) objs rc =
      parseFrames unm g (objs ++ [x]) rc := by
  have hshape : u32le b.length ++ (b ++ g) =
      b.length % 256 :: (b.length / 256 % 256) :: (b.length / 65536 % 256) ::
        (b.length / 16777216 % 256) :: (b ++ g) := rfl
  rw [hshape, parseFrames_cons4, leU32_u32le b.length hlt]
  rw [if_neg (by omega)]
  rw [if_pos (by simp)]
  rw [List.take_append_of_le_length (Nat.le_refl _), List.take_length, hunm]
  simp [List.drop_append_of_le_length (Nat.le_refl b.length), List.drop_length]

/-- Scanning a tombstone frame pops the front live item. -/
theorem parseFrames_tomb (unm : List Nat → Option α) (g : List Nat) (o : α)
    (objs : List α) (rc : Nat) :
    parseFrames unm ([0, 0, 0, 0] ++ g) (o :: objs) rc =
      parseFrames unm g objs (rc + 1) := by
  show parseFrames unm (0 :: 0 :: 0 :: 0 :: g) (o :: objs) rc = _
  rw [parseFrames_cons4]
  norm_num [leU32]

/-- The scan of a concatenation continues the scan of the prefix. -/
theorem parseFrames_append (unm : List Nat → Option α) (l : List Nat)
    (objs : List α) (rc : Nat) (g : List Nat) (objs' : List α) (rc' : Nat)
    (h : parseFrames unm l objs rc = .ok (objs', rc')) :
    parseFrames unm (l ++ g) objs rc = parseFrames unm g objs' rc' := by
  induction l, objs, rc using parseFrames.induct unm generalizing objs' rc' with
  | case1 objs rc =>
    rw [parseFrames_nil] at h
    obtain ⟨rfl, rfl⟩ : objs = objs' ∧ rc = rc' := by simpa using h
    rw [List.nil_append]
  | case2 => simp [parseFrames] at h
  | case3 => simp [parseFrames] at h
  | case4 => simp [parseFrames] at h
  | case5 b0 b1 b2 b3 rest rc hzero =>
    rw [parseFrames_cons4, if_pos hzero] at h
    exact absurd h (by simp)
  | case6 b0 b1 b2 b3 rest rc hzero o tl ih =>
    rw [parseFrames_cons4, if_pos hzero] at h
    simp only [List.cons_append]
    rw [parseFrames_cons4, if_pos hzero]
    exact ih _ _ h
  | case7 b0 b1 b2 b3 rest objs rc hzero hle hunm =>
    rw [parseFrames_cons4, if_neg hzero, if_pos hle, hunm] at h
    exact absurd h (by simp)
  | case8 b0 b1 b2 b3 rest objs rc hzero hle x hunm ih =>
    rw [parseFrames_cons4, if_neg hzero, if_pos hle, hunm] at h
    simp only [List.cons_append]
    rw [parseFrames_cons4, if_neg hzero,
      if_pos (by simp; omega),
      List.take_append_of_le_length hle, hunm,
      List.drop_append_of_le_length hle]
    exact ih _ _ h
  | case9 b0 b1 b2 b3 rest objs rc hzero hgt =>
    rw [parseFrames_cons4, if_neg hzero, if_neg hgt] at h
    exact absurd h (by simp)

/-- Scanning `k` tombstone frames (one block of `4k` zero bytes) pops the
front `k` live items. -/
theorem parseFrames_tombs (unm : List Nat → Option α) (k : Nat) (objs : List α)
    (rc : Nat) (hk : k ≤ objs.length) :
    parseFrames unm (List.replicate (4 * k) 0) objs rc =
      .ok (objs.drop k, rc + k) := by
  induction k generalizing objs rc with
  | zero => simp [parseFrames_nil]
  | succ k ih =>
    cases objs with
    | nil => simp at hk
    | cons o tl =>
      have hrep : List.replicate (4 * (k + 1)) (0 : Nat) =
          [0, 0, 0, 0] ++ List.replicate (4 * k) 0 := by
        rw [show 4 * (k + 1) = 4 + 4 * k by ring, List.replicate_add]
        rfl
      rw [hrep, parseFrames_tomb, ih tl (rc + 1) (by simpa using hk)]
      simp [Nat.add_assoc, Nat.add_comm 1 k]

/-- At sufficient fuel the structural twin agrees with `parseFrames`. -/
theorem parseFramesF_eq (unm : List Nat → Option α) :
    ∀ (fuel : Nat) (l : List Nat) (objs : List α) (rc : Nat),
    l.length ≤ 4 * fuel →
    parseFramesF unm fuel l objs rc = parseFrames unm l objs rc := by
  intro fuel
  induction fuel with
  | zero =>
    intro l objs rc h
    obtain - | ⟨b0, - | ⟨b1, - | ⟨b2, - | ⟨b3, rest⟩⟩⟩⟩ := l
    · rw [parseFrames_nil]
      rfl
    · rw [parseFrames.eq_def]
      rfl
    · rw [parseFrames.eq_def]
      rfl
    · rw [parseFrames.eq_def]
      rfl
    · exact absurd h (by simp)
  | succ fuel ih =>
    intro l objs rc h
    obtain - | ⟨b0, - | ⟨b1, - | ⟨b2, - | ⟨b3, rest⟩⟩⟩⟩ := l
    · rw [parseFrames_nil]
      rfl
    · rw [parseFrames.eq_def]
      rfl
    · rw [parseFrames.eq_def]
      rfl
    · rw [parseFrames.eq_def]
      rfl
    · have h' : rest.length ≤ 4 * fuel := by
        simp only [List.length_cons] at h
        omega
      rw [parseFrames_cons4]
      simp only [parseFramesF]
      by_cases h0 : leU32 b0 b1 b2 b3 = 0
      · simp only [if_pos h0]
        cases objs with
        | nil => rfl
        | cons o tl => exact ih rest tl (rc + 1) h'
      · simp only [if_neg h0]
        by_cases h1 : leU32 b0 b1 b2 b3 ≤ rest.length
        · simp only [if_pos h1]
          rcases hu : unm (rest.take (leU32 b0 b1 b2 b3)) with - | obj
          · simp only [hu]
          · simp only [hu]
            exact ih (rest.drop (leU32 b0 b1 b2 b3)) (objs ++ [obj]) rc
              (by simp only [List.length_drop]; omega)
        · simp only [if_neg h1]

/-- The structural twin agrees with `Segment.load`. -/
theorem Segment.loadF_eq (unm : List Nat → Option α) (n : Nat)
    (f : List Nat) : Segment.loadF unm n f = Segment.load unm n f := by
  obtain - | ⟨b0, - | ⟨b1, - | ⟨b2, - | ⟨b3, rest⟩⟩⟩⟩ := f
  · rfl
  · rfl
  · rfl
  · rfl
  · simp only [Segment.loadF, Segment.load,
      parseFramesF_eq unm rest.length rest [] 0 (by omega)]

/-- The structural twin agrees with `closeFullFirstSegment`. -/
theorem Queue.closeFullFirstSegmentF_eq (unm : List Nat → Option α)
    (q : Queue α) :
    q.closeFullFirstSegmentF unm = q.closeFullFirstSegment unm := by
  simp only [Queue.closeFullFirstSegmentF, Queue.closeFullFirstSegment,
    Segment.loadF_eq]

/-- The structural twin agrees with `dequeue`. -/
theorem Queue.dequeueF_eq (unm : List Nat → Option α) (q : Queue α) :
    q.dequeueF unm = q.dequeue unm := by
  simp only [Queue.dequeueF, Queue.dequeue, Queue.closeFullFirstSegmentF_eq]

/-- The structural twin agrees with `loadQueue`. -/
theorem loadQueueF_eq (unm : List Nat → Option α) (mo : Nat) (fs : Folder) :
    loadQueueF unm mo fs = loadQueue unm mo fs := by
  simp only [loadQueueF, loadQueue, Segment.loadF_eq]

/-- A fresh segment's file (the bare capacity header) loads back to the
fresh segment. -/
theorem Segment.load_newSegment (unm : List Nat → Option α) (cap n : Nat)
    (h : cap < 4294967296) :
    Segment.load unm n (Segment.newSegment cap n : Segment α).file =
      .ok (Segment.newSegment cap n) := by
  show Segment.load unm n
      (cap % 256 :: (cap / 256 % 256) :: (cap / 65536 % 256) ::
        (cap / 16777216 % 256) :: []) = _
  simp only [Segment.load, parseFrames_nil, leU32_u32le cap h]
  rfl

/-- Appending frames to a loadable file extends its replay. -/
theorem Segment.load_append (unm : List Nat → Option α) (n : Nat)
    (f g : List Nat) (s : Segment α) (objs' : List α) (rc' : Nat)
    (hs : Segment.load unm n f = .ok s)
    (hg : parseFrames unm g s.objects s.removeCount = .ok (objs', rc')) :
    Segment.load unm n (f ++ g) =
      .ok { s with objects := objs', removeCount := rc', file := f ++ g } := by
  obtain _ | ⟨b0, _ | ⟨b1, _ | ⟨b2, _ | ⟨b3, rest⟩⟩⟩⟩ := f
  · simp [Segment.load] at hs
  · simp [Segment.load] at hs
  · simp [Segment.load] at hs
  · simp [Segment.load] at hs
  simp only [Segment.load] at hs
  rcases hp : parseFrames unm rest ([] : List α) 0 with e | ⟨objs0, rc0⟩
  · rw [hp] at hs
    exact absurd hs (by simp)
  rw [hp] at hs
  have hsval : s =
      ⟨leU32 b0 b1 b2 b3, n, objs0, rc0, b0 :: b1 :: b2 :: b3 :: rest⟩ := by
    simpa using hs.symm
  subst hsval
  show Segment.load unm n (b0 :: b1 :: b2 :: b3 :: (rest ++ g)) = _
  simp only [Segment.load]
  rw [parseFrames_append unm rest [] 0 g objs0 rc0 hp]
  simp only at hg
  rw [hg]
  rfl

/-- `addMany` on a loadable segment with a well-behaved codec: the batch
succeeds, appends the items in order, and the grown file loads back to the
grown segment. -/
theorem Segment.addMany_load (mar : α → Option (List Nat))
    (unm : List Nat → Option α) (hgm : GoodMar mar unm) (n : Nat)
    (items : List α) :
    ∀ s : Segment α, Segment.load unm n s.file = .ok s →
    ∃ s', s.addMany mar items = (true, s') ∧
      s'.capacity = s.capacity ∧ s'.segmentNumber = s.segmentNumber ∧
      s'.objects = s.objects ++ items ∧ s'.removeCount = s.removeCount ∧
      Segment.load unm n s'.file = .ok s' := by
  induction items with
  | nil =>
    intro s hs
    exact ⟨s, rfl, rfl, rfl, by simp, rfl, hs⟩
  | cons x rest ih =>
    intro s hs
    obtain ⟨b, hb, hb1, hb2, hbu⟩ := hgm x
    have hparse : parseFrames unm (u32le b.length ++ b) s.objects s.removeCount =
        .ok (s.objects ++ [x], s.removeCount) := by
      have h0 := parseFrames_item unm hbu hb1 hb2 [] s.objects s.removeCount
      rw [List.append_nil] at h0
      rw [h0, parseFrames_nil]
    have hs1 := Segment.load_append unm n s.file (u32le b.length ++ b) s
      (s.objects ++ [x]) s.removeCount hs hparse
    rw [← List.append_assoc] at hs1
    obtain ⟨s', h1, hcap, hnum, hobjs, hrc, hload⟩ :=
      ih ⟨s.capacity, s.segmentNumber, s.objects ++ [x], s.removeCount,
        s.file ++ u32le b.length ++ b⟩ hs1
    refine ⟨s', ?_, hcap, hnum, ?_, hrc, hload⟩
    · have hstep : Segment.addMany mar s (x :: rest) =
          Segment.addMany mar ⟨s.capacity, s.segmentNumber, s.objects ++ [x],
            s.removeCount, s.file ++ u32le b.length ++ b⟩ rest := by
        simp only [Segment.addMany, hb]
      rw [hstep]
      exact h1
    · rw [hobjs]
      simp

/-- `removeMany` on a non-empty segment pops the front
`min count objects.length` items, writes that many tombstones as one block
of zero bytes and counts them. -/
theorem Segment.removeMany_ne (s : Segment α) (count : Nat)
    (hne : s.objects ≠ []) :
    s.removeMany count = some (s.objects.take (min count s.objects.length),
      ⟨s.capacity, s.segmentNumber, s.objects.drop (min count s.objects.length),
        s.removeCount + min count s.objects.length,
        s.file ++ List.replicate (4 * min count s.objects.length) 0⟩) := by
  cases hobj : s.objects with
  | nil => exact absurd hobj hne
  | cons x tl =>
    simp only [Segment.removeMany, hobj]

/-- `removeMany` on an empty segment is `errEmptySegment`. -/
theorem Segment.removeMany_nil (s : Segment α) (count : Nat)
    (hobj : s.objects = []) : s.removeMany count = none := by
  simp only [Segment.removeMany, hobj]

/-- The file grown by `removeMany`'s tombstone block loads back to the
shrunk segment. -/
theorem Segment.removeMany_load (unm : List Nat → Option α) (n : Nat)
    (s : Segment α) (k : Nat) (hs : Segment.load unm n s.file = .ok s)
    (hk : k ≤ s.objects.length) :
    Segment.load unm n (s.file ++ List.replicate (4 * k) 0) =
      .ok ⟨s.capacity, s.segmentNumber, s.objects.drop k, s.removeCount + k,
        s.file ++ List.replicate (4 * k) 0⟩ :=
  Segment.load_append unm n s.file (List.replicate (4 * k) 0) s
    (s.objects.drop k) (s.removeCount + k) hs
    (parseFrames_tombs unm k s.objects s.removeCount hk)

/-- `remove` on a non-empty segment pops the front item and writes one
tombstone frame. -/
theorem Segment.remove_ne (s : Segment α) (x : α) (tl : List α)
    (hobj : s.objects = x :: tl) :
    s.remove = some (x, ⟨s.capacity, s.segmentNumber, tl, s.removeCount + 1,
      s.file ++ [0, 0, 0, 0]⟩) := by
  simp only [Segment.remove, hobj]

/-- `remove` on an empty segment is `errEmptySegment`. -/
theorem Segment.remove_nil (s : Segment α) (hobj : s.objects = []) :
    s.remove = none := by
  simp only [Segment.remove, hobj]

/-- The file grown by `remove`'s tombstone loads back to the popped
segment. -/
theorem Segment.remove_load (unm : List Nat → Option α) (n : Nat)
    (s : Segment α) (x : α) (tl : List α)
    (hs : Segment.load unm n s.file = .ok s) (hobj : s.objects = x :: tl) :
    Segment.load unm n (s.file ++ [0, 0, 0, 0]) =
      .ok ⟨s.capacity, s.segmentNumber, tl, s.removeCount + 1,
        s.file ++ [0, 0, 0, 0]⟩ := by
  have h4 : ([0, 0, 0, 0] : List Nat) = List.replicate (4 * 1) 0 := rfl
  have := Segment.removeMany_load unm n s 1 hs (by rw [hobj]; simp)
  rw [← h4] at this
  rw [this, hobj]
  rfl

/-! ## Folder lemmas -/

theorem getFile_not_mem (fs : Folder) (n : Nat) (h : n ∉ fs.map Prod.fst) :
    getFile fs n = none := by
  induction fs with
  | nil => rfl
  | cons p rest ih =>
    obtain ⟨m, d⟩ := p
    simp only [List.map_cons, List.mem_cons, not_or] at h
    simp only [getFile, if_neg (Ne.symm h.1)]
    exact ih h.2

theorem getFile_append_left (fs fs' : Folder) (n : Nat) (d : List Nat)
    (h : getFile fs n = some d) : getFile (fs ++ fs') n = some d := by
  induction fs with
  | nil => simp [getFile] at h
  | cons p rest ih =>
    obtain ⟨m, e⟩ := p
    simp only [getFile] at h
    by_cases hm : m = n
    · rw [if_pos hm] at h
      simpa [getFile, hm] using h
    · rw [if_neg hm] at h
      simpa [getFile, hm] using ih h

theorem getFile_append_right (fs fs' : Folder) (n : Nat)
    (h : n ∉ fs.map Prod.fst) : getFile (fs ++ fs') n = getFile fs' n := by
  induction fs with
  | nil => rfl
  | cons p rest ih =>
    obtain ⟨m, e⟩ := p
    simp only [List.map_cons, List.mem_cons, not_or] at h
    simp only [List.cons_append, getFile, if_neg (Ne.symm h.1)]
    exact ih h.2

theorem setFile_not_mem (fs : Folder) (n : Nat) (d : List Nat)
    (h : n ∉ fs.map Prod.fst) : setFile fs n d = fs ++ [(n, d)] := by
  induction fs with
  | nil => rfl
  | cons p rest ih =>
    obtain ⟨m, e⟩ := p
    simp only [List.map_cons, List.mem_cons, not_or] at h
    simp only [setFile, if_neg (Ne.symm h.1), List.cons_append]
    rw [ih h.2]

theorem removeFile_not_mem (fs : Folder) (n : Nat)
    (h : n ∉ fs.map Prod.fst) : removeFile fs n = fs := by
  rw [removeFile, List.filter_eq_self]
  intro p hp
  have : p.1 ≠ n := by
    intro he
    exact h (he ▸ List.mem_map_of_mem Prod.fst hp)
  simpa using this

theorem removeFile_append (fs fs' : Folder) (n : Nat) :
    removeFile (fs ++ fs') n = removeFile fs n ++ removeFile fs' n :=
  List.filter_append fs fs'

/-! ## Directory scan lemmas -/

theorem loadSegmentRanges_fold (fs : Folder) : ∀ a b c : Nat,
    fs.foldl (fun acc p => (min acc.1 p.1, max acc.2.1 p.1, acc.2.2 + 1)) (a, b, c) =
      (fs.foldl (fun m p => min m p.1) a, fs.foldl (fun m p => max m p.1) b,
        c + fs.length) := by
  induction fs with
  | nil => intro a b c; simp
  | cons p rest ih =>
    intro a b c
    simp only [List.foldl_cons, ih, List.length_cons]
    rw [Nat.add_comm rest.length 1, ← Nat.add_assoc]

theorem foldl_min_le_init (fs : Folder) : ∀ a : Nat,
    fs.foldl (fun m p => min m p.1) a ≤ a := by
  induction fs with
  | nil => intro a; simp
  | cons p rest ih =>
    intro a
    simp only [List.foldl_cons]
    exact le_trans (ih _) (Nat.min_le_left _ _)

theorem foldl_min_le_mem (fs : Folder) (q : Nat × List Nat) (hq : q ∈ fs) :
    ∀ a : Nat, fs.foldl (fun m p => min m p.1) a ≤ q.1 := by
  induction fs with
  | nil => simp at hq
  | cons p rest ih =>
    intro a
    simp only [List.foldl_cons]
    rcases List.mem_cons.mp hq with h | h
    · subst h
      exact le_trans (foldl_min_le_init rest _) (Nat.min_le_right _ _)
    · exact ih h _

theorem le_foldl_min (fs : Folder) (c : Nat) (h : ∀ p ∈ fs, c ≤ p.1) :
    ∀ a : Nat, c ≤ a → c ≤ fs.foldl (fun m p => min m p.1) a := by
  induction fs with
  | nil => intro a ha; simpa
  | cons p rest ih =>
    intro a ha
    simp only [List.foldl_cons]
    refine ih (fun q hq => h q (List.mem_cons_of_mem _ hq)) _ ?_
    exact le_min ha (h p (List.mem_cons_self _ _))

theorem foldl_max_ge_init (fs : Folder) : ∀ a : Nat,
    a ≤ fs.foldl (fun m p => max m p.1) a := by
  induction fs with
  | nil => intro a; simp
  | cons p rest ih =>
    intro a
    simp only [List.foldl_cons]
    exact le_trans (Nat.le_max_left _ _) (ih _)

theorem foldl_max_ge_mem (fs : Folder) (q : Nat × List Nat) (hq : q ∈ fs) :
    ∀ a : Nat, q.1 ≤ fs.foldl (fun m p => max m p.1) a := by
  induction fs with
  | nil => simp at hq
  | cons p rest ih =>
    intro a
    simp only [List.foldl_cons]
    rcases List.mem_cons.mp hq with h | h
    · subst h
      exact le_trans (Nat.le_max_right _ _) (foldl_max_ge_init rest _)
    · exact ih h _

theorem foldl_max_le (fs : Folder) (c : Nat) (h : ∀ p ∈ fs, p.1 ≤ c) :
    ∀ a : Nat, a ≤ c → fs.foldl (fun m p => max m p.1) a ≤ c := by
  induction fs with
  | nil => intro a ha; simpa
  | cons p rest ih =>
    intro a ha
    simp only [List.foldl_cons]
    refine ih (fun q hq => h q (List.mem_cons_of_mem _ hq)) _ ?_
    exact max_le ha (h p (List.mem_cons_self _ _))

/-- The directory scan of a folder whose least key is `mn` (below the
`math.MaxInt32` fold seed) and greatest key is `mx` yields
`(mn, mx, count)`. -/
theorem loadSegmentRanges_eq (fs : Folder) (mn mx : Nat)
    (hmn_mem : ∃ p ∈ fs, p.1 = mn) (hmn_le : ∀ p ∈ fs, mn ≤ p.1)
    (hmn_lt : mn ≤ 2147483647)
    (hmx_mem : ∃ p ∈ fs, p.1 = mx) (hmx_ge : ∀ p ∈ fs, p.1 ≤ mx) :
    loadSegmentRanges fs = (mn, mx, fs.length) := by
  obtain ⟨p, hp, rfl⟩ := hmn_mem
  obtain ⟨q, hq, rfl⟩ := hmx_mem
  rw [loadSegmentRanges, loadSegmentRanges_fold]
  have h1 : fs.foldl (fun m p => min m p.1) 2147483647 = p.1 :=
    le_antisymm (foldl_min_le_mem fs p hp _) (le_foldl_min fs p.1 hmn_le _ hmn_lt)
  have h2 : fs.foldl (fun m p => max m p.1) 0 = q.1 :=
    le_antisymm (foldl_max_le fs q.1 hmx_ge _ (Nat.zero_le _))
      (foldl_max_ge_mem fs q hq _)
  rw [h1, h2, Nat.zero_add]

/-! ## Load inversion and the observation layer -/

/-- Inverting a successful `load`: the number and file are the given ones. -/
theorem Segment.load_inv (unm : List Nat → Option α) (n : Nat) (f : List Nat)
    (s : Segment α) (h : Segment.load unm n f = .ok s) :
    s.segmentNumber = n ∧ s.file = f := by
  obtain _ | ⟨b0, _ | ⟨b1, _ | ⟨b2, _ | ⟨b3, rest⟩⟩⟩⟩ := f
  · simp [Segment.load] at h
  · simp [Segment.load] at h
  · simp [Segment.load] at h
  · simp [Segment.load] at h
  simp only [Segment.load] at h
  rcases hp : parseFrames unm rest ([] : List α) 0 with e | ⟨objs0, rc0⟩
  · rw [hp] at h
    exact absurd h (by simp)
  rw [hp] at h
  have := (by simpa using h.symm :
    s = ⟨leU32 b0 b1 b2 b3, n, objs0, rc0, b0 :: b1 :: b2 :: b3 :: rest⟩)
  rw [this]
  exact ⟨rfl, rfl⟩

/-- A successful `load` does not depend on the segment number except for
recording it. -/
theorem Segment.load_num (unm : List Nat → Option α) (n m : Nat) (f : List Nat)
    (s : Segment α) (h : Segment.load unm n f = .ok s) :
    Segment.load unm m f = .ok ⟨s.capacity, m, s.objects, s.removeCount, s.file⟩ := by
  obtain _ | ⟨b0, _ | ⟨b1, _ | ⟨b2, _ | ⟨b3, rest⟩⟩⟩⟩ := f
  · simp [Segment.load] at h
  · simp [Segment.load] at h
  · simp [Segment.load] at h
  · simp [Segment.load] at h
  simp only [Segment.load] at h ⊢
  rcases hp : parseFrames unm rest ([] : List α) 0 with e | ⟨objs0, rc0⟩
  · rw [hp] at h
    exact absurd h (by simp)
  rw [hp] at h
  have := (by simpa using h.symm :
    s = ⟨leU32 b0 b1 b2 b3, n, objs0, rc0, b0 :: b1 :: b2 :: b3 :: rest⟩)
  rw [this]

/-- What a loadable file replays to. -/
theorem parsedObjs_eq (unm : List Nat → Option α) (n : Nat) (f : List Nat)
    (s : Segment α) (h : Segment.load unm n f = .ok s) :
    parsedObjs unm f = s.objects := by
  rw [parsedObjs, Segment.load_num unm n 0 f s h]

theorem Queue.liveItems_alias (unm : List Nat → Option α) (q : Queue α)
    (h : q.first.segmentNumber = q.last.segmentNumber) :
    q.liveItems unm = q.first.objects := by
  rw [Queue.liveItems, if_pos h]

theorem Queue.liveItems_ne (unm : List Nat → Option α) (q : Queue α)
    (h : q.first.segmentNumber ≠ q.last.segmentNumber) :
    q.liveItems unm = q.first.objects ++
      (q.folder.map fun p => parsedObjs unm p.2).flatten ++ q.last.objects := by
  rw [Queue.liveItems, if_neg h]

/-- The queue built over an empty folder satisfies the invariant. -/
theorem WFQ_fresh (unm : List Nat → Option α) (mo : Nat) (h1 : 1 ≤ mo)
    (h2 : mo < 4294967296) : WFQ unm (freshQueue mo : Queue α) := by
  refine ⟨⟨h1, h2, le_refl _, fun _ => rfl, rfl, rfl,
    Segment.load_newSegment unm mo 1 h2, Segment.load_newSegment unm mo 1 h2,
    h1, h1, ?_, ?_, ?_, ?_, ?_⟩, ?_⟩
  · simp [freshQueue, Segment.countOnDisk, Segment.newSegment]
  · simp [freshQueue, Segment.countOnDisk, Segment.newSegment]
  · intro h; exact absurd rfl h
  · intro h; exact absurd rfl h
  · intro p hp; simp [freshQueue] at hp
  · intro _
    simpa [Segment.countOnDisk, Segment.newSegment] using h1

theorem liveItems_fresh (unm : List Nat → Option α) (mo : Nat) :
    (freshQueue mo : Queue α).liveItems unm = [] := by
  rw [Queue.liveItems_alias unm _ rfl]
  rfl

/-! ## Rollover preserves the invariant -/

theorem countOnDisk_newSegment (c n : Nat) :
    (Segment.newSegment c n : Segment α).countOnDisk = 0 := rfl

/-- `addSegmentLocked` on a full tail keeps the invariant, keeps the live
items, keeps the head, and installs a fresh tail numbered one higher. -/
theorem addSegment_spec (unm : List Nat → Option α) (q : Queue α)
    (hw : WFQ unm q) (hfull : q.last.capacity ≤ q.last.countOnDisk) :
    WFQ unm q.addSegmentLocked ∧
    q.addSegmentLocked.liveItems unm = q.liveItems unm ∧
    q.addSegmentLocked.first = q.first ∧
    q.addSegmentLocked.last =
      Segment.newSegment q.maxObjectsPerSegment (q.segmentNumber + 1) ∧
    q.addSegmentLocked.maxObjectsPerSegment = q.maxObjectsPerSegment ∧
    q.addSegmentLocked.segmentNumber = q.segmentNumber + 1 := by
  by_cases hal : q.first.segmentNumber = q.last.segmentNumber
  · -- head and tail alias: segmentCount = 1, the shared segment stays head
    have hcount : ¬ 1 < q.segmentCount := by
      rw [Queue.segmentCount]; omega
    have hfe : q.first = q.last := hw.alias_eq hal
    have hfolder : q.folder = [] := by
      have hk := hw.folder_keys
      have h0 : q.last.segmentNumber - q.first.segmentNumber - 1 = 0 := by omega
      rw [h0, List.range'_zero] at hk
      exact List.map_eq_nil.mp hk
    have hq' : q.addSegmentLocked = ⟨q.maxObjectsPerSegment, q.folder, q.first,
        Segment.newSegment q.maxObjectsPerSegment (q.segmentNumber + 1),
        q.segmentNumber + 1⟩ := by
      simp only [Queue.addSegmentLocked, if_neg hcount]
    have hne' : q.first.segmentNumber ≠ q.segmentNumber + 1 := by
      rw [hal, hw.segnum]; omega
    refine ⟨⟨⟨hw.mo_pos, hw.mo_lt, ?_, ?_, ?_, ?_, ?_, ?_, ?_, ?_, ?_, ?_, ?_,
      ?_, ?_⟩, ?_⟩, ?_, ?_, ?_, ?_, ?_⟩ <;> rw [hq']
    · show q.first.segmentNumber ≤ q.segmentNumber + 1
      rw [hal, hw.segnum]; omega
    · exact fun h => absurd h hne'
    · rfl
    · show q.folder.map Prod.fst = List.range' (q.first.segmentNumber + 1)
        (q.segmentNumber + 1 - q.first.segmentNumber - 1)
      have hs := hw.segnum
      have h0 : q.segmentNumber + 1 - q.first.segmentNumber - 1 = 0 := by omega
      rw [hfolder, h0, List.range'_zero]
      rfl
    · exact hw.first_load
    · exact Segment.load_newSegment unm _ _ hw.mo_lt
    · exact hw.first_cap_pos
    · exact hw.mo_pos
    · exact hw.first_le
    · simp [Segment.countOnDisk, Segment.newSegment]
    · intro _
      rw [hfe]
      exact hfull
    · intro _; rfl
    · intro p hp
      rw [hfolder] at hp
      simp at hp
    · intro h0
      exact absurd (hw.first_empty_notfull h0) (by rw [hfe]; omega)
    · rw [Queue.liveItems_ne unm _ hne', Queue.liveItems_alias unm q hal,
        hfolder]
      simp [Segment.newSegment]
  · -- distinct head and tail: the old tail's file moves into the folder
    have hlt : q.first.segmentNumber < q.last.segmentNumber :=
      lt_of_le_of_ne hw.seg_le hal
    have hcount : 1 < q.segmentCount := by
      rw [Queue.segmentCount]; omega
    have hnotmem : q.last.segmentNumber ∉ q.folder.map Prod.fst := by
      rw [hw.folder_keys]
      intro hmem
      rw [List.mem_range'] at hmem
      omega
    have hset : setFile q.folder q.last.segmentNumber q.last.file =
        q.folder ++ [(q.last.segmentNumber, q.last.file)] :=
      setFile_not_mem _ _ _ hnotmem
    have hq' : q.addSegmentLocked = ⟨q.maxObjectsPerSegment,
        q.folder ++ [(q.last.segmentNumber, q.last.file)], q.first,
        Segment.newSegment q.maxObjectsPerSegment (q.segmentNumber + 1),
        q.segmentNumber + 1⟩ := by
      simp only [Queue.addSegmentLocked, if_pos hcount, hset]
    have hne' : q.first.segmentNumber ≠ q.segmentNumber + 1 := by
      rw [hw.segnum]; omega
    have hlen : q.last.objects.length = q.last.capacity := by
      have h1 := hw.last_le
      have h2 := hw.last_rc hal
      rw [Segment.countOnDisk] at h1 hfull
      omega
    refine ⟨⟨⟨hw.mo_pos, hw.mo_lt, ?_, ?_, ?_, ?_, ?_, ?_, ?_, ?_, ?_, ?_, ?_,
      ?_, ?_⟩, ?_⟩, ?_, ?_, ?_, ?_, ?_⟩ <;> rw [hq']
    · show q.first.segmentNumber ≤ q.segmentNumber + 1
      rw [hw.segnum]; omega
    · exact fun h => absurd h hne'
    · rfl
    · show (q.folder ++ [(q.last.segmentNumber, q.last.file)]).map Prod.fst = _
      rw [List.map_append, hw.folder_keys, hw.segnum]
      show _ = List.range' (q.first.segmentNumber + 1)
        (q.last.segmentNumber + 1 - q.first.segmentNumber - 1)
      have harith : q.last.segmentNumber + 1 - q.first.segmentNumber - 1 =
          (q.last.segmentNumber - q.first.segmentNumber - 1) + 1 := by omega
      rw [harith, List.range'_concat]
      have : q.first.segmentNumber + 1 +
          1 * (q.last.segmentNumber - q.first.segmentNumber - 1) =
          q.last.segmentNumber := by omega
      rw [this]
      rfl
    · exact hw.first_load
    · exact Segment.load_newSegment unm _ _ hw.mo_lt
    · exact hw.first_cap_pos
    · exact hw.mo_pos
    · exact hw.first_le
    · simp [Segment.countOnDisk, Segment.newSegment]
    · intro _
      exact hw.first_full_of_ne hal
    · intro _; rfl
    · intro p hp
      rcases List.mem_append.mp hp with hmem | hmem
      · exact hw.middles p hmem
      · have hp' : p = (q.last.segmentNumber, q.last.file) := by simpa using hmem
        subst hp'
        exact ⟨q.last, hw.last_load, hw.last_rc hal, hlen, hw.last_cap_pos⟩
    · intro h0
      exact hw.first_empty_notfull h0
    · rw [Queue.liveItems_ne unm _ hne', Queue.liveItems_ne unm q hal]
      show q.first.objects ++
          ((q.folder ++ [(q.last.segmentNumber, q.last.file)]).map
            fun p => parsedObjs unm p.2).flatten ++
          (Segment.newSegment q.maxObjectsPerSegment (q.segmentNumber + 1) :
            Segment α).objects = _
      rw [List.map_append, List.flatten_append]
      simp only [List.map_cons, List.map_nil, List.flatten_cons,
        List.flatten_nil, List.append_nil]
      rw [parsedObjs_eq unm q.last.segmentNumber q.last.file q.last hw.last_load]
      show _ ++ (_ ++ _) ++ ([] : List α) = _
      rw [List.append_nil, List.append_assoc]

/-! ## Advancing a drained head preserves the invariant -/

/-- A folder whose key list is `range' a (k + 1)` starts with an entry
keyed `a`. -/
theorem folder_head_shape (fs : Folder) (a k : Nat)
    (h : fs.map Prod.fst = List.range' a (k + 1)) :
    ∃ d rest, fs = (a, d) :: rest ∧ rest.map Prod.fst = List.range' (a + 1) k := by
  cases fs with
  | nil => simp [List.range'_succ] at h
  | cons p rest =>
    obtain ⟨m, d⟩ := p
    rw [List.range'_succ] at h
    simp only [List.map_cons, List.cons.injEq] at h
    exact ⟨d, rest, by rw [h.1], h.2⟩

/-- `closeFullFirstSegment` on a drained (empty and at-capacity) head:
it succeeds, preserves the invariant and the live items. -/
theorem advance_spec (unm : List Nat → Option α) (q : Queue α)
    (hw : WFQ0 unm q) (hobj : q.first.objects = [])
    (hfull : q.first.capacity ≤ q.first.countOnDisk) :
    ∃ q', q.closeFullFirstSegment unm = (none, q') ∧ WFQ unm q' ∧
      q'.liveItems unm = q.liveItems unm ∧
      q'.maxObjectsPerSegment = q.maxObjectsPerSegment := by
  rcases Nat.lt_or_ge q.first.segmentNumber q.last.segmentNumber with hlt | hge
  case inr =>
    -- head and tail alias (segmentCount = 1): fresh segment
    have hal : q.first.segmentNumber = q.last.segmentNumber :=
      le_antisymm hw.seg_le hge
    have hsc : q.segmentCount = 1 := by rw [Queue.segmentCount]; omega
    have hfolder : q.folder = [] := by
      have hk := hw.folder_keys
      have h0 : q.last.segmentNumber - q.first.segmentNumber - 1 = 0 := by omega
      rw [h0, List.range'_zero] at hk
      exact List.map_eq_nil.mp hk
    refine ⟨⟨q.maxObjectsPerSegment, q.folder,
      Segment.newSegment q.maxObjectsPerSegment (q.segmentNumber + 1),
      Segment.newSegment q.maxObjectsPerSegment (q.segmentNumber + 1),
      q.segmentNumber + 1⟩,
      by rw [Queue.closeFullFirstSegment, if_pos hsc], ?_, ?_, rfl⟩
    · refine ⟨⟨hw.mo_pos, hw.mo_lt, le_refl _, fun _ => rfl, rfl, ?_,
        Segment.load_newSegment unm _ _ hw.mo_lt,
        Segment.load_newSegment unm _ _ hw.mo_lt,
        hw.mo_pos, hw.mo_pos, ?_, ?_, fun h => absurd rfl h,
        fun h => absurd rfl h, ?_⟩, ?_⟩
      · show q.folder.map Prod.fst = List.range' (q.segmentNumber + 1 + 1)
          (q.segmentNumber + 1 - (q.segmentNumber + 1) - 1)
        rw [hfolder, Nat.sub_self]
        rfl
      · simp [Segment.countOnDisk, Segment.newSegment]
      · simp [Segment.countOnDisk, Segment.newSegment]
      · intro p hp
        rw [hfolder] at hp
        simp at hp
      · intro _
        simpa [Segment.countOnDisk, Segment.newSegment] using hw.mo_pos
    · rw [Queue.liveItems_alias unm _ rfl, Queue.liveItems_alias unm q hal]
      rw [hobj]
      rfl
  case inl =>
    rcases Nat.lt_or_ge (q.first.segmentNumber + 1) q.last.segmentNumber
      with hlt2 | hge2
    case inr =>
      -- exactly two segments: the tail becomes the head
      have hl : q.last.segmentNumber = q.first.segmentNumber + 1 := by omega
      have hsc1 : ¬ q.segmentCount = 1 := by rw [Queue.segmentCount]; omega
      have hsc2 : q.segmentCount = 2 := by rw [Queue.segmentCount]; omega
      have hfolder : q.folder = [] := by
        have hk := hw.folder_keys
        have h0 : q.last.segmentNumber - q.first.segmentNumber - 1 = 0 := by omega
        rw [h0, List.range'_zero] at hk
        exact List.map_eq_nil.mp hk
      have hne : q.first.segmentNumber ≠ q.last.segmentNumber := by omega
      refine ⟨⟨q.maxObjectsPerSegment, q.folder, q.last, q.last,
        q.segmentNumber⟩,
        by rw [Queue.closeFullFirstSegment, if_neg hsc1, if_pos hsc2],
        ?_, ?_, rfl⟩
      · refine ⟨⟨hw.mo_pos, hw.mo_lt, le_refl _, fun _ => rfl, hw.segnum, ?_,
          hw.last_load, hw.last_load, hw.last_cap_pos, hw.last_cap_pos,
          hw.last_le, hw.last_le, fun h => absurd rfl h, fun h => absurd rfl h,
          ?_⟩, ?_⟩
        · show q.folder.map Prod.fst = List.range' (q.last.segmentNumber + 1)
            (q.last.segmentNumber - q.last.segmentNumber - 1)
          rw [hfolder, Nat.sub_self]
          rfl
        · intro p hp
          rw [hfolder] at hp
          simp at hp
        · intro h0
          have hrc := hw.last_rc hne
          rw [Segment.countOnDisk, h0, hrc]
          simpa using hw.last_cap_pos
      · rw [Queue.liveItems_alias unm _ rfl, Queue.liveItems_ne unm q hne,
          hobj, hfolder]
        rfl
    case inl =>
      -- at least three segments: read the next numbered file from disk
      have hsc1 : ¬ q.segmentCount = 1 := by rw [Queue.segmentCount]; omega
      have hsc2 : ¬ q.segmentCount = 2 := by rw [Queue.segmentCount]; omega
      have hk1 : q.last.segmentNumber - q.first.segmentNumber - 1 =
          (q.last.segmentNumber - q.first.segmentNumber - 2) + 1 := by omega
      obtain ⟨d, rest, hfs, hrest⟩ := folder_head_shape q.folder
        (q.first.segmentNumber + 1)
        (q.last.segmentNumber - q.first.segmentNumber - 2)
        (by rw [hw.folder_keys, hk1])
      obtain ⟨s, hsload, hsrc, hslen, hscap⟩ :=
        hw.middles (q.first.segmentNumber + 1, d) (by rw [hfs]; exact List.mem_cons_self _ _)
      obtain ⟨hsnum, hsfile⟩ := Segment.load_inv unm _ _ _ hsload
      have hsload' : Segment.load unm (q.first.segmentNumber + 1) d = .ok s :=
        hsload
      have hsnum' : s.segmentNumber = q.first.segmentNumber + 1 := hsnum
      have hsfile' : s.file = d := hsfile
      have hget : getFile q.folder (q.first.segmentNumber + 1) = some d := by
        rw [hfs]
        simp [getFile]
      have hremove : removeFile q.folder (q.first.segmentNumber + 1) = rest := by
        rw [hfs, removeFile]
        rw [List.filter_cons_of_neg (by simp)]
        have : (q.first.segmentNumber + 1) ∉ rest.map Prod.fst := by
          rw [hrest]
          intro hmem
          rw [List.mem_range'] at hmem
          omega
        exact removeFile_not_mem rest _ this
      have hne' : s.segmentNumber ≠ q.last.segmentNumber := by
        rw [hsnum']; omega
      refine ⟨⟨q.maxObjectsPerSegment,
        removeFile q.folder (q.first.segmentNumber + 1), s, q.last,
        q.segmentNumber⟩, ?_, ?_, ?_, rfl⟩
      · simp only [Queue.closeFullFirstSegment, if_neg hsc1, if_neg hsc2, hget,
          hsload']
      · refine ⟨⟨hw.mo_pos, hw.mo_lt,
          (by show s.segmentNumber ≤ q.last.segmentNumber; omega),
          fun h => absurd h hne', hw.segnum, ?_, ?_, hw.last_load,
          hscap, hw.last_cap_pos, ?_, hw.last_le, ?_,
          fun _ => hw.last_rc (by omega), ?_⟩, ?_⟩
        · show (removeFile q.folder (q.first.segmentNumber + 1)).map Prod.fst =
            List.range' (s.segmentNumber + 1)
              (q.last.segmentNumber - s.segmentNumber - 1)
          rw [hremove, hrest, hsnum']
          have : q.last.segmentNumber - (q.first.segmentNumber + 1) - 1 =
              q.last.segmentNumber - q.first.segmentNumber - 2 := by omega
          rw [this]
        · show Segment.load unm s.segmentNumber s.file = .ok s
          rw [hsnum', hsfile']
          exact hsload'
        · show s.countOnDisk ≤ s.capacity
          rw [Segment.countOnDisk, hsrc, hslen]
          omega
        · intro _
          show s.capacity ≤ s.countOnDisk
          rw [Segment.countOnDisk, hsrc, hslen]
          omega
        · intro p hp
          have hp0 : p ∈ removeFile q.folder (q.first.segmentNumber + 1) := hp
          rw [hremove] at hp0
          refine hw.middles p ?_
          rw [hfs]
          exact List.mem_cons_of_mem _ hp0
        · intro h0
          rw [h0] at hslen
          simp at hslen
          omega
      · rw [Queue.liveItems_ne unm _ hne', Queue.liveItems_ne unm q (by omega),
          hobj, hremove, hfs]
        simp only [List.map_cons, List.flatten_cons, List.nil_append]
        rw [parsedObjs_eq unm (q.first.segmentNumber + 1) d s hsload']

/-- `closeFullFirstSegment` succeeds from any invariant state (also when
the head still holds live items, as in the unguarded final advance of
`DequeueMany`). -/
theorem advanceAny_ok (unm : List Nat → Option α) (q : Queue α)
    (hw : WFQ0 unm q) :
    ∃ q', q.closeFullFirstSegment unm = (none, q') := by
  by_cases hsc1 : q.segmentCount = 1
  · exact ⟨_, by rw [Queue.closeFullFirstSegment, if_pos hsc1]⟩
  by_cases hsc2 : q.segmentCount = 2
  · exact ⟨_, by rw [Queue.closeFullFirstSegment, if_neg hsc1, if_pos hsc2]⟩
  have hsc3 : q.first.segmentNumber + 2 ≤ q.last.segmentNumber := by
    have h1 := hw.seg_le
    rw [Queue.segmentCount] at hsc1 hsc2
    omega
  have hk1 : q.last.segmentNumber - q.first.segmentNumber - 1 =
      (q.last.segmentNumber - q.first.segmentNumber - 2) + 1 := by omega
  obtain ⟨d, rest, hfs, hrest⟩ := folder_head_shape q.folder
    (q.first.segmentNumber + 1) (q.last.segmentNumber - q.first.segmentNumber - 2)
    (by rw [hw.folder_keys, hk1])
  obtain ⟨s, hsload, -, -, -⟩ :=
    hw.middles (q.first.segmentNumber + 1, d)
      (by rw [hfs]; exact List.mem_cons_self _ _)
  have hsload' : Segment.load unm (q.first.segmentNumber + 1) d = .ok s := hsload
  have hget : getFile q.folder (q.first.segmentNumber + 1) = some d := by
    rw [hfs]
    simp [getFile]
  refine ⟨⟨q.maxObjectsPerSegment,
    removeFile q.folder (q.first.segmentNumber + 1), s, q.last,
    q.segmentNumber⟩, ?_⟩
  simp only [Queue.closeFullFirstSegment, if_neg hsc1, if_neg hsc2, hget,
    hsload']

/-! ## Enqueue preserves the invariant -/

/-- Appending one item to a tail with room, through the `lastSegment`
pointer. -/
theorem setLast_add_spec (mar : α → Option (List Nat))
    (unm : List Nat → Option α) (hgm : GoodMar mar unm) (q : Queue α)
    (hw : WFQ unm q) (x : α)
    (hroom : q.last.countOnDisk < q.last.capacity) :
    ∃ s', q.last.add mar x = (true, s') ∧ WFQ unm (q.setLast s') ∧
      (q.setLast s').liveItems unm = q.liveItems unm ++ [x] ∧
      (q.setLast s').maxObjectsPerSegment = q.maxObjectsPerSegment ∧
      (q.setLast s').segmentNumber = q.segmentNumber := by
  obtain ⟨s', h1, hcap, hnum, hobjs, hrc, hload⟩ :=
    Segment.addMany_load mar unm hgm q.last.segmentNumber [x] q.last hw.last_load
  have hcod : s'.countOnDisk = q.last.countOnDisk + 1 := by
    have hlen : s'.objects.length = q.last.objects.length + 1 := by
      rw [hobjs]
      simp
    rw [Segment.countOnDisk, Segment.countOnDisk, hlen, hrc]
    omega
  have hloadn : Segment.load unm s'.segmentNumber s'.file = .ok s' := by
    rw [hnum]
    exact hload
  have hne_objs : s'.objects ≠ [] := by
    rw [hobjs]
    simp
  refine ⟨s', h1, ?_⟩
  by_cases halias : q.first.segmentNumber = q.last.segmentNumber
  · have hfe : q.first = q.last := hw.alias_eq halias
    have hfolder : q.folder = [] := by
      have hk := hw.folder_keys
      have h0 : q.last.segmentNumber - q.first.segmentNumber - 1 = 0 := by omega
      rw [h0, List.range'_zero] at hk
      exact List.map_eq_nil.mp hk
    have hql : q.setLast s' = ⟨q.maxObjectsPerSegment, q.folder, s', s',
        q.segmentNumber⟩ := by
      simp only [Queue.setLast, if_pos halias]
    rw [hql]
    refine ⟨⟨⟨hw.mo_pos, hw.mo_lt, le_refl _, fun _ => rfl, ?_, ?_, hloadn,
      hloadn, ?_, ?_, ?_, ?_, fun h => absurd rfl h, fun h => absurd rfl h,
      ?_⟩, ?_⟩, ?_, rfl, rfl⟩
    · show q.segmentNumber = s'.segmentNumber
      rw [hnum, hw.segnum]
    · show q.folder.map Prod.fst = List.range' (s'.segmentNumber + 1)
        (s'.segmentNumber - s'.segmentNumber - 1)
      rw [hfolder, Nat.sub_self]
      rfl
    · rw [hcap]; exact hw.last_cap_pos
    · rw [hcap]; exact hw.last_cap_pos
    · rw [hcod, hcap]; omega
    · rw [hcod, hcap]; omega
    · intro p hp
      rw [hfolder] at hp
      simp at hp
    · intro h0
      exact absurd h0 hne_objs
    · rw [Queue.liveItems_alias unm _ rfl, Queue.liveItems_alias unm q halias]
      show s'.objects = q.first.objects ++ [x]
      rw [hobjs, hfe]
  · have hne : q.first.segmentNumber ≠ s'.segmentNumber := by
      rw [hnum]; exact halias
    have hql : q.setLast s' = ⟨q.maxObjectsPerSegment, q.folder, q.first, s',
        q.segmentNumber⟩ := by
      simp only [Queue.setLast, if_neg halias]
    rw [hql]
    refine ⟨⟨⟨hw.mo_pos, hw.mo_lt, ?_, fun h => absurd h hne, ?_, ?_,
      hw.first_load, hloadn, hw.first_cap_pos, ?_, hw.first_le, ?_, ?_, ?_,
      ?_⟩, ?_⟩, ?_, rfl, rfl⟩
    · show q.first.segmentNumber ≤ s'.segmentNumber
      rw [hnum]; exact hw.seg_le
    · show q.segmentNumber = s'.segmentNumber
      rw [hnum, hw.segnum]
    · show q.folder.map Prod.fst = List.range' (q.first.segmentNumber + 1)
        (s'.segmentNumber - q.first.segmentNumber - 1)
      rw [hnum]
      exact hw.folder_keys
    · rw [hcap]; exact hw.last_cap_pos
    · rw [hcod, hcap]; omega
    · intro _
      exact hw.first_full_of_ne halias
    · intro _
      rw [hrc]
      exact hw.last_rc halias
    · exact hw.middles
    · intro h0
      exact hw.first_empty_notfull h0
    · rw [Queue.liveItems_ne unm _ hne, Queue.liveItems_ne unm q halias]
      show q.first.objects ++ _ ++ s'.objects = _
      rw [hobjs, ← List.append_assoc]

/-- `Enqueue` on an invariant state with a well-behaved codec: it succeeds
and appends the item to the live sequence. -/
theorem enqueue_spec (mar : α → Option (List Nat)) (unm : List Nat → Option α)
    (hgm : GoodMar mar unm) (q : Queue α) (hw : WFQ unm q) (x : α) :
    ∃ q', q.enqueue mar x = (none, q') ∧ WFQ unm q' ∧
      q'.liveItems unm = q.liveItems unm ++ [x] ∧
      q'.maxObjectsPerSegment = q.maxObjectsPerSegment := by
  by_cases hfull : q.last.capacity ≤ q.last.countOnDisk
  · obtain ⟨hwR, hliveR, -, hlastR, hmoR, hsegR⟩ := addSegment_spec unm q hw hfull
    have hroom : q.addSegmentLocked.last.countOnDisk <
        q.addSegmentLocked.last.capacity := by
      rw [hlastR]
      show 0 < q.maxObjectsPerSegment
      exact hw.mo_pos
    obtain ⟨s', h1, hw', hlive', hmo', -⟩ :=
      setLast_add_spec mar unm hgm q.addSegmentLocked hwR x hroom
    refine ⟨q.addSegmentLocked.setLast s', ?_, hw', ?_, ?_⟩
    · simp [Queue.enqueue, if_pos hfull, h1]
    · rw [hlive', hliveR]
    · rw [hmo', hmoR]
  · obtain ⟨s', h1, hw', hlive', hmo', -⟩ :=
      setLast_add_spec mar unm hgm q hw x (by omega)
    refine ⟨q.setLast s', ?_, hw', hlive', hmo'⟩
    simp [Queue.enqueue, if_neg hfull, h1]

/-! ## Dequeue -/

/-- With distinct head and tail the head is never empty: it is full on
disk, and a drained head would already have been advanced. -/
theorem first_objects_ne (unm : List Nat → Option α) (q : Queue α)
    (hw : WFQ unm q) (hal : q.first.segmentNumber ≠ q.last.segmentNumber) :
    q.first.objects ≠ [] := fun h0 =>
  absurd (hw.first_empty_notfull h0) (not_lt.mpr (hw.first_full_of_ne hal))

/-- `Dequeue` on an empty queue returns `ErrEmpty` and changes nothing. -/
theorem dequeue_empty (unm : List Nat → Option α) (q : Queue α)
    (hw : WFQ unm q) (hlive : q.liveItems unm = []) :
    q.dequeue unm = ((none, some .empty), q) := by
  have hobj : q.first.objects = [] := by
    by_cases hal : q.first.segmentNumber = q.last.segmentNumber
    · rwa [Queue.liveItems_alias unm q hal] at hlive
    · exact absurd hlive (by
        rw [Queue.liveItems_ne unm q hal]
        simp [first_objects_ne unm q hw hal])
  simp only [Queue.dequeue, Segment.remove_nil q.first hobj]

/-- Popping the head through the `firstSegment` pointer: the boundary
invariant minus `first_empty_notfull` holds afterwards, the head keeps its
on-disk count, and the live sequence loses its front element. -/
theorem setFirst_pop_spec (unm : List Nat → Option α) (q : Queue α)
    (hw : WFQ unm q) (x : α) (tl : List α) (hobj : q.first.objects = x :: tl) :
    ∃ restPart : List α,
      q.liveItems unm = x :: (tl ++ restPart) ∧
      WFQ0 unm (q.setFirst ⟨q.first.capacity, q.first.segmentNumber, tl,
        q.first.removeCount + 1, q.first.file ++ [0, 0, 0, 0]⟩) ∧
      (q.setFirst ⟨q.first.capacity, q.first.segmentNumber, tl,
        q.first.removeCount + 1, q.first.file ++ [0, 0, 0, 0]⟩).liveItems unm
        = tl ++ restPart ∧
      (q.setFirst ⟨q.first.capacity, q.first.segmentNumber, tl,
        q.first.removeCount + 1,
        q.first.file ++ [0, 0, 0, 0]⟩).maxObjectsPerSegment
        = q.maxObjectsPerSegment := by
  set s : Segment α := ⟨q.first.capacity, q.first.segmentNumber, tl,
    q.first.removeCount + 1, q.first.file ++ [0, 0, 0, 0]⟩ with hs
  have hload : Segment.load unm q.first.segmentNumber s.file = .ok s :=
    Segment.remove_load unm q.first.segmentNumber q.first x tl hw.first_load hobj
  have hcod : s.countOnDisk = q.first.countOnDisk := by
    rw [hs, Segment.countOnDisk, Segment.countOnDisk, hobj]
    simp only [List.length_cons]
    omega
  by_cases hal : q.first.segmentNumber = q.last.segmentNumber
  · have hfolder : q.folder = [] := by
      have hk := hw.folder_keys
      have h0 : q.last.segmentNumber - q.first.segmentNumber - 1 = 0 := by omega
      rw [h0, List.range'_zero] at hk
      exact List.map_eq_nil.mp hk
    have hql : q.setFirst s = ⟨q.maxObjectsPerSegment, q.folder, s, s,
        q.segmentNumber⟩ := by
      simp only [Queue.setFirst, if_pos hal]
    rw [hql]
    refine ⟨[], ?_, ⟨hw.mo_pos, hw.mo_lt, le_refl _, fun _ => rfl, ?_, ?_,
      hload, hload, hw.first_cap_pos, hw.first_cap_pos, ?_, ?_,
      fun h => absurd rfl h, fun h => absurd rfl h, ?_⟩, ?_, rfl⟩
    · rw [Queue.liveItems_alias unm q hal, hobj, List.append_nil]
    · show q.segmentNumber = s.segmentNumber
      rw [hs, hw.segnum, hal]
    · show q.folder.map Prod.fst = List.range' (s.segmentNumber + 1)
        (s.segmentNumber - s.segmentNumber - 1)
      rw [hfolder, Nat.sub_self]
      rfl
    · rw [hcod]; exact hw.first_le
    · rw [hcod]; exact hw.first_le
    · intro p hp
      rw [hfolder] at hp
      simp at hp
    · rw [Queue.liveItems_alias unm _ rfl, List.append_nil]
  · have hql : q.setFirst s = ⟨q.maxObjectsPerSegment, q.folder, s, q.last,
        q.segmentNumber⟩ := by
      simp only [Queue.setFirst, if_neg hal]
    rw [hql]
    refine ⟨(q.folder.map fun p => parsedObjs unm p.2).flatten ++ q.last.objects,
      ?_, ⟨hw.mo_pos, hw.mo_lt, hw.seg_le, fun h => absurd h hal, hw.segnum,
      hw.folder_keys, hload, hw.last_load, hw.first_cap_pos, hw.last_cap_pos,
      ?_, hw.last_le, ?_, hw.last_rc, hw.middles⟩, ?_, rfl⟩
    · rw [Queue.liveItems_ne unm q hal, hobj]
      simp [List.append_assoc]
    · rw [hcod]; exact hw.first_le
    · intro _
      rw [hcod]
      exact hw.first_full_of_ne hal
    · have hal' : (⟨q.maxObjectsPerSegment, q.folder, s, q.last,
          q.segmentNumber⟩ : Queue α).first.segmentNumber ≠
          (⟨q.maxObjectsPerSegment, q.folder, s, q.last,
          q.segmentNumber⟩ : Queue α).last.segmentNumber := hal
      rw [Queue.liveItems_ne unm _ hal']
      show tl ++ _ ++ _ = _
      rw [List.append_assoc]

theorem setFirst_first (q : Queue α) (s : Segment α) :
    (q.setFirst s).first = s := by
  rw [Queue.setFirst]
  split <;> rfl

/-- `Dequeue` on a non-empty queue returns the front live item with no
error, preserves the invariant, and leaves the remaining items. -/
theorem dequeue_cons (unm : List Nat → Option α) (q : Queue α)
    (hw : WFQ unm q) (x : α) (rest' : List α)
    (hlive : q.liveItems unm = x :: rest') :
    ∃ q', q.dequeue unm = ((some x, none), q') ∧ WFQ unm q' ∧
      q'.liveItems unm = rest' ∧
      q'.maxObjectsPerSegment = q.maxObjectsPerSegment := by
  obtain ⟨tl, hobj⟩ : ∃ tl, q.first.objects = x :: tl := by
    by_cases hal : q.first.segmentNumber = q.last.segmentNumber
    · exact ⟨rest', by rwa [Queue.liveItems_alias unm q hal] at hlive⟩
    · rcases hfo : q.first.objects with _ | ⟨y, tl⟩
      · exact absurd hfo (first_objects_ne unm q hw hal)
      · refine ⟨tl, ?_⟩
        rw [Queue.liveItems_ne unm q hal, hfo] at hlive
        simp only [List.cons_append, List.cons.injEq] at hlive
        rw [hlive.1]
  obtain ⟨restPart, hdecomp, hw0, hlive1, hmo1⟩ :=
    setFirst_pop_spec unm q hw x tl hobj
  have hrest : rest' = tl ++ restPart := by
    rw [hlive] at hdecomp
    exact (List.cons.injEq _ _ _ _).mp hdecomp |>.2
  set s : Segment α := ⟨q.first.capacity, q.first.segmentNumber, tl,
    q.first.removeCount + 1, q.first.file ++ [0, 0, 0, 0]⟩ with hs
  have hremove : q.first.remove = some (x, s) :=
    Segment.remove_ne q.first x tl hobj
  have hq1first : (q.setFirst s).first = s := setFirst_first q s
  have hunfold : q.dequeue unm =
      (if 0 < (q.setFirst s).first.count then ((some x, none), q.setFirst s)
       else if (q.setFirst s).first.capacity ≤
           (q.setFirst s).first.countOnDisk then
         match (q.setFirst s).closeFullFirstSegment unm with
         | (some e, q2) => ((some x, some e), q2)
         | (none, q2) => ((some x, none), q2)
       else ((some x, none), q.setFirst s)) := by
    simp only [Queue.dequeue, hremove]
  rcases htl : tl with _ | ⟨t, ts⟩
  · -- the head became empty; it is advanced exactly when full
    have hcount : ¬ 0 < (q.setFirst s).first.count := by
      rw [hq1first, hs, Segment.count, htl]
      simp
    have hsobj : (q.setFirst s).first.objects = [] := by
      rw [hq1first, hs, htl]
    by_cases hfull : (q.setFirst s).first.capacity ≤
        (q.setFirst s).first.countOnDisk
    · obtain ⟨q2, hadv, hw2, hlive2, hmo2⟩ :=
        advance_spec unm (q.setFirst s) hw0 hsobj (by rw [hq1first] at hfull ⊢; exact hfull)
      refine ⟨q2, ?_, hw2, ?_, ?_⟩
      · rw [hunfold, if_neg hcount, if_pos hfull, hadv]
      · rw [hlive2, hlive1, hrest, htl]
      · rw [hmo2, hmo1]
    · refine ⟨q.setFirst s, ?_, ⟨hw0, ?_⟩, ?_, hmo1⟩
      · rw [hunfold, if_neg hcount, if_neg hfull]
      · intro _
        rw [hq1first] at hfull
        rw [hq1first]
        omega
      · rw [hlive1, hrest, htl]
  · -- live items remain in the head
    have hcount : 0 < (q.setFirst s).first.count := by
      rw [hq1first, hs, Segment.count, htl]
      simp
    refine ⟨q.setFirst s, ?_, ⟨hw0, ?_⟩, ?_, hmo1⟩
    · rw [hunfold, if_pos hcount]
    · intro h0
      rw [hq1first, hs, htl] at h0
      simp at h0
    · rw [hlive1, hrest, htl]

/-! ## Trace conservation -/

/-- Conservation over single-item operation traces: the initial live items
followed by everything enqueued equal the successfully dequeued items
followed by the final live items, and the invariant is maintained. -/
theorem runTrace_spec (mar : α → Option (List Nat)) (unm : List Nat → Option α)
    (hgm : GoodMar mar unm) :
    ∀ (acts : List (Act α)) (q : Queue α), WFQ unm q →
    WFQ unm (runTrace mar unm q acts).1 ∧
    q.liveItems unm ++ enqueuedOf acts =
      (runTrace mar unm q acts).2 ++
        ((runTrace mar unm q acts).1).liveItems unm ∧
    (runTrace mar unm q acts).1.maxObjectsPerSegment =
      q.maxObjectsPerSegment := by
  intro acts
  induction acts with
  | nil =>
    intro q hw
    refine ⟨hw, ?_, rfl⟩
    simp [runTrace, enqueuedOf]
  | cons a rest ih =>
    intro q hw
    cases a with
    | enq x =>
      obtain ⟨q', he, hw', hlive', hmo'⟩ := enqueue_spec mar unm hgm q hw x
      have hr : runTrace mar unm q (.enq x :: rest) = runTrace mar unm q' rest := by
        simp only [runTrace, he]
      obtain ⟨ihw, ihlive, ihmo⟩ := ih q' hw'
      refine ⟨by rw [hr]; exact ihw, ?_, by rw [hr, ihmo, hmo']⟩
      rw [hr]
      show q.liveItems unm ++ (x :: enqueuedOf rest) = _
      calc q.liveItems unm ++ (x :: enqueuedOf rest)
          = (q.liveItems unm ++ [x]) ++ enqueuedOf rest := by simp
        _ = q'.liveItems unm ++ enqueuedOf rest := by rw [hlive']
        _ = _ := ihlive
    | deq =>
      cases hlive : q.liveItems unm with
      | nil =>
        have hd := dequeue_empty unm q hw hlive
        have hr : runTrace mar unm q (.deq :: rest) =
            ((runTrace mar unm q rest).1, (runTrace mar unm q rest).2) := by
          simp only [runTrace, hd, List.nil_append]
        obtain ⟨ihw, ihlive, ihmo⟩ := ih q hw
        rw [hlive] at ihlive
        rw [hr]
        exact ⟨ihw, by simpa [enqueuedOf] using ihlive, ihmo⟩
      | cons x rest' =>
        obtain ⟨q', hd, hw', hlive', hmo'⟩ := dequeue_cons unm q hw x rest' hlive
        have hr : runTrace mar unm q (.deq :: rest) =
            ((runTrace mar unm q' rest).1,
              [x] ++ (runTrace mar unm q' rest).2) := by
          simp only [runTrace, hd]
        obtain ⟨ihw, ihlive, ihmo⟩ := ih q' hw'
        rw [hr]
        refine ⟨ihw, ?_, by rw [ihmo, hmo']⟩
        show (x :: rest') ++ enqueuedOf (Act.deq :: rest) = _
        calc (x :: rest') ++ enqueuedOf (Act.deq :: rest)
            = x :: (rest' ++ enqueuedOf rest) := rfl
          _ = x :: (q'.liveItems unm ++ enqueuedOf rest) := by rw [hlive']
          _ = x :: ((runTrace mar unm q' rest).2 ++
              ((runTrace mar unm q' rest).1).liveItems unm) := by rw [ihlive]
          _ = _ := by simp

/-! ## DequeueMany -/

/-- On an empty queue the head holds no objects. -/
theorem first_objects_of_live_nil (unm : List Nat → Option α) (q : Queue α)
    (hw : WFQ unm q) (hlive : q.liveItems unm = []) :
    q.first.objects = [] := by
  by_cases hal : q.first.segmentNumber = q.last.segmentNumber
  · rwa [Queue.liveItems_alias unm q hal] at hlive
  · exact absurd hlive (by
      rw [Queue.liveItems_ne unm q hal]
      simp [first_objects_ne unm q hw hal])

/-- Popping the front `k` head items through the `firstSegment` pointer
(the effect of `removeMany`): the boundary invariant minus
`first_empty_notfull` holds afterwards and the live sequence loses its
first `k` elements. -/
theorem setFirst_popK_spec (unm : List Nat → Option α) (q : Queue α)
    (hw : WFQ unm q) (k : Nat) (hk : k ≤ q.first.objects.length) :
    ∃ restPart : List α,
      q.liveItems unm = q.first.objects ++ restPart ∧
      (q.first.segmentNumber = q.last.segmentNumber → restPart = []) ∧
      WFQ0 unm (q.setFirst ⟨q.first.capacity, q.first.segmentNumber,
        q.first.objects.drop k, q.first.removeCount + k,
        q.first.file ++ List.replicate (4 * k) 0⟩) ∧
      (q.setFirst ⟨q.first.capacity, q.first.segmentNumber,
        q.first.objects.drop k, q.first.removeCount + k,
        q.first.file ++ List.replicate (4 * k) 0⟩).liveItems unm
        = q.first.objects.drop k ++ restPart ∧
      (q.setFirst ⟨q.first.capacity, q.first.segmentNumber,
        q.first.objects.drop k, q.first.removeCount + k,
        q.first.file ++ List.replicate (4 * k) 0⟩).maxObjectsPerSegment
        = q.maxObjectsPerSegment := by
  set s : Segment α := ⟨q.first.capacity, q.first.segmentNumber,
    q.first.objects.drop k, q.first.removeCount + k,
    q.first.file ++ List.replicate (4 * k) 0⟩ with hs
  have hload : Segment.load unm q.first.segmentNumber s.file = .ok s :=
    Segment.removeMany_load unm q.first.segmentNumber q.first k hw.first_load hk
  have hcod : s.countOnDisk = q.first.countOnDisk := by
    show (q.first.objects.drop k).length + (q.first.removeCount + k) =
      q.first.objects.length + q.first.removeCount
    rw [List.length_drop]
    omega
  by_cases hal : q.first.segmentNumber = q.last.segmentNumber
  · have hfolder : q.folder = [] := by
      have hk' := hw.folder_keys
      have h0 : q.last.segmentNumber - q.first.segmentNumber - 1 = 0 := by omega
      rw [h0, List.range'_zero] at hk'
      exact List.map_eq_nil.mp hk'
    have hql : q.setFirst s = ⟨q.maxObjectsPerSegment, q.folder, s, s,
        q.segmentNumber⟩ := by
      simp only [Queue.setFirst, if_pos hal]
    rw [hql]
    refine ⟨[], ?_, fun _ => rfl, ⟨hw.mo_pos, hw.mo_lt, le_refl _,
      fun _ => rfl, ?_, ?_, hload, hload, hw.first_cap_pos, hw.first_cap_pos,
      ?_, ?_, fun h => absurd rfl h, fun h => absurd rfl h, ?_⟩, ?_, rfl⟩
    · rw [Queue.liveItems_alias unm q hal, List.append_nil]
    · show q.segmentNumber = s.segmentNumber
      rw [hs, hw.segnum, hal]
    · show q.folder.map Prod.fst = List.range' (s.segmentNumber + 1)
        (s.segmentNumber - s.segmentNumber - 1)
      rw [hfolder, Nat.sub_self]
      rfl
    · rw [hcod]; exact hw.first_le
    · rw [hcod]; exact hw.first_le
    · intro p hp
      rw [hfolder] at hp
      simp at hp
    · rw [Queue.liveItems_alias unm _ rfl, List.append_nil]
  · have hql : q.setFirst s = ⟨q.maxObjectsPerSegment, q.folder, s, q.last,
        q.segmentNumber⟩ := by
      simp only [Queue.setFirst, if_neg hal]
    rw [hql]
    refine ⟨(q.folder.map fun p => parsedObjs unm p.2).flatten ++
      q.last.objects, ?_, fun h => absurd h hal, ⟨hw.mo_pos, hw.mo_lt,
      hw.seg_le, fun h => absurd h hal, hw.segnum, hw.folder_keys, hload,
      hw.last_load, hw.first_cap_pos, hw.last_cap_pos, ?_, hw.last_le, ?_,
      hw.last_rc, hw.middles⟩, ?_, rfl⟩
    · rw [Queue.liveItems_ne unm q hal]
      rw [List.append_assoc]
    · rw [hcod]; exact hw.first_le
    · intro _
      rw [hcod]
      exact hw.first_full_of_ne hal
    · have hal' : (⟨q.maxObjectsPerSegment, q.folder, s, q.last,
          q.segmentNumber⟩ : Queue α).first.segmentNumber ≠
          (⟨q.maxObjectsPerSegment, q.folder, s, q.last,
          q.segmentNumber⟩ : Queue α).last.segmentNumber := hal
      rw [Queue.liveItems_ne unm _ hal']
      show q.first.objects.drop k ++ _ ++ _ = _
      rw [List.append_assoc]

/-- One unfolding of the `DequeueMany` loop. -/
theorem Queue.dequeueManyLoop_eq (unm : List Nat → Option α) (q : Queue α)
    (count : Nat) (acc : List α) :
    Queue.dequeueManyLoop unm q count acc =
      match q.first.removeMany count with
      | none => (.ok acc, q)
      | some (removed, s) =>
        if count - removed.length = 0 ∨ removed.length = 0 ∨
            s.countOnDisk < s.capacity then
          (.ok (acc ++ removed), q.setFirst s)
        else
          match (q.setFirst s).closeFullFirstSegment unm with
          | (some e, q2) => (.error e, q2)
          | (none, q2) =>
            Queue.dequeueManyLoop unm q2 (count - removed.length) (acc ++ removed)
    := by
  rw [Queue.dequeueManyLoop.eq_def]

/-- The loop when `removeMany` reports the empty segment. -/
theorem Queue.dequeueManyLoop_none (unm : List Nat → Option α) (q : Queue α)
    (count : Nat) (acc : List α) (h : q.first.removeMany count = none) :
    Queue.dequeueManyLoop unm q count acc = (.ok acc, q) := by
  rw [Queue.dequeueManyLoop_eq, h]

/-- The loop when `removeMany` pops a batch. -/
theorem Queue.dequeueManyLoop_some (unm : List Nat → Option α) (q : Queue α)
    (count : Nat) (acc removed : List α) (s : Segment α)
    (h : q.first.removeMany count = some (removed, s)) :
    Queue.dequeueManyLoop unm q count acc =
      if count - removed.length = 0 ∨ removed.length = 0 ∨
          s.countOnDisk < s.capacity then
        (.ok (acc ++ removed), q.setFirst s)
      else
        match (q.setFirst s).closeFullFirstSegment unm with
        | (some e, q2) => (.error e, q2)
        | (none, q2) =>
          Queue.dequeueManyLoop unm q2 (count - removed.length) (acc ++ removed)
    := by
  rw [Queue.dequeueManyLoop_eq, h]

/-- At sufficient fuel the structural twin agrees with `dequeueManyLoop`. -/
theorem Queue.dequeueManyLoopF_eq (unm : List Nat → Option α) :
    ∀ (fuel count : Nat) (q : Queue α) (acc : List α), count < fuel →
    Queue.dequeueManyLoopF unm fuel q count acc =
      Queue.dequeueManyLoop unm q count acc := by
  intro fuel
  induction fuel with
  | zero => intro count q acc h; exact absurd h (Nat.not_lt_zero count)
  | succ fuel ih =>
    intro count q acc h
    rw [Queue.dequeueManyLoop_eq]
    simp only [Queue.dequeueManyLoopF]
    rcases hrm : q.first.removeMany count with - | ⟨removed, s⟩
    · rfl
    · by_cases hc : count - removed.length = 0 ∨ removed.length = 0 ∨
        s.countOnDisk < s.capacity
      · simp only [if_pos hc]
      · simp only [if_neg hc, Queue.closeFullFirstSegmentF_eq]
        rcases hcf : (q.setFirst s).closeFullFirstSegment unm with ⟨oe, q2⟩
        cases oe with
        | some e => rfl
        | none =>
          exact ih (count - removed.length) q2 (acc ++ removed)
            (by push_neg at hc; omega)

/-- The structural twin agrees with `dequeueMany`. -/
theorem Queue.dequeueManyF_eq (unm : List Nat → Option α) (q : Queue α)
    (count : Nat) : q.dequeueManyF unm count = q.dequeueMany unm count := by
  simp only [Queue.dequeueManyF, Queue.dequeueMany,
    Queue.dequeueManyLoopF_eq unm (count + 1) count q [] (Nat.lt_succ_self count),
    Queue.closeFullFirstSegmentF_eq]

/-- The `DequeueMany` loop on an invariant state collects the first
`count` live items (all of them when fewer exist), never errors, and ends
in a `WFQ0` state; an empty queue is left untouched. -/
theorem Queue.dequeueManyLoop_spec (unm : List Nat → Option α) :
    ∀ (count : Nat) (q : Queue α) (acc : List α), WFQ unm q →
    ∃ q1, Queue.dequeueManyLoop unm q count acc =
        (.ok (acc ++ (q.liveItems unm).take count), q1) ∧ WFQ0 unm q1 ∧
      (q.liveItems unm = [] → q1 = q) := by
  intro count
  induction count using Nat.strong_induction_on with
  | _ count ih =>
    intro q acc hw
    rcases hfo : q.first.objects with _ | ⟨x, tl⟩
    · have hal : q.first.segmentNumber = q.last.segmentNumber := by
        by_contra hne
        exact first_objects_ne unm q hw hne hfo
      have hlive : q.liveItems unm = [] := by
        rw [Queue.liveItems_alias unm q hal, hfo]
      refine ⟨q, ?_, hw.toWFQ0, fun _ => rfl⟩
      rw [Queue.dequeueManyLoop_none unm q count acc
        (Segment.removeMany_nil q.first count hfo), hlive]
      simp
    · have hne0 : q.first.objects ≠ [] := by rw [hfo]; simp
      have hlen_pos : 1 ≤ q.first.objects.length := by rw [hfo]; simp
      have hrm := Segment.removeMany_ne q.first count hne0
      have hk_le : min count q.first.objects.length ≤ q.first.objects.length :=
        Nat.min_le_right _ _
      obtain ⟨restPart, hdecomp, halrp, hw0, hlive1, hmo1⟩ :=
        setFirst_popK_spec unm q hw (min count q.first.objects.length) hk_le
      set k := min count q.first.objects.length with hkdef
      set s : Segment α := ⟨q.first.capacity, q.first.segmentNumber,
        q.first.objects.drop k, q.first.removeCount + k,
        q.first.file ++ List.replicate (4 * k) 0⟩ with hs
      have hremlen : (q.first.objects.take k).length = k := by
        rw [List.length_take]
        omega
      have hcod : s.countOnDisk = q.first.countOnDisk := by
        show (q.first.objects.drop k).length + (q.first.removeCount + k) =
          q.first.objects.length + q.first.removeCount
        rw [List.length_drop]
        omega
      have hlive_ne : q.liveItems unm ≠ [] := by
        rw [hdecomp, hfo]
        simp
      by_cases hbrk : count - (q.first.objects.take k).length = 0 ∨
          (q.first.objects.take k).length = 0 ∨ s.countOnDisk < s.capacity
      · have htake : (q.liveItems unm).take count = q.first.objects.take k := by
          rcases le_or_lt count q.first.objects.length with hc | hc
          · have hkc : k = count := by omega
            rw [hdecomp, List.take_append_of_le_length (by omega), hkc]
          · have hkc : k = q.first.objects.length := by omega
            have hrp : restPart = [] := by
              rcases hbrk with h1 | h2 | h3
              · rw [hremlen] at h1
                omega
              · rw [hremlen] at h2
                omega
              · by_cases hal : q.first.segmentNumber = q.last.segmentNumber
                · exact halrp hal
                · exact absurd (hw.first_full_of_ne hal) (by
                    rw [← hcod]
                    show ¬ s.capacity ≤ s.countOnDisk
                    omega)
            rw [hdecomp, hrp, List.append_nil,
              List.take_of_length_le (by omega), hkc, List.take_length]
        refine ⟨q.setFirst s, ?_, hw0, fun h0 => absurd h0 hlive_ne⟩
        rw [Queue.dequeueManyLoop_some unm q count acc _ _ hrm, if_pos hbrk,
          htake]
      · push_neg at hbrk
        obtain ⟨hb1, hb2, hb3⟩ := hbrk
        rw [hremlen] at hb1 hb2
        have hkc : k = q.first.objects.length := by omega
        have hsobj : (q.setFirst s).first.objects = [] := by
          rw [setFirst_first, hs, hkc]
          simp
        have hfull : (q.setFirst s).first.capacity ≤
            (q.setFirst s).first.countOnDisk := by
          rw [setFirst_first]
          exact hb3
        obtain ⟨q2, hadv, hw2, hlive2, hmo2⟩ :=
          advance_spec unm (q.setFirst s) hw0 hsobj hfull
        have hlive2' : q2.liveItems unm = restPart := by
          rw [hlive2, hlive1, hkc]
          simp
        have hck : count - k < count := by omega
        obtain ⟨q3, hrec, hw3, -⟩ :=
          ih (count - k) hck q2 (acc ++ q.first.objects.take k) hw2
        refine ⟨q3, ?_, hw3, fun h0 => absurd h0 hlive_ne⟩
        have hnbrk : ¬ (count - (q.first.objects.take k).length = 0 ∨
            (q.first.objects.take k).length = 0 ∨
            s.countOnDisk < s.capacity) := by
          rw [hremlen]
          push_neg
          exact ⟨by omega, by omega, by omega⟩
        rw [Queue.dequeueManyLoop_some unm q count acc _ _ hrm, if_neg hnbrk,
          hadv]
        show Queue.dequeueManyLoop unm q2
          (count - (q.first.objects.take k).length)
          (acc ++ q.first.objects.take k) = _
        rw [hremlen, hrec, hlive2']
        have htake : (q.liveItems unm).take count =
            q.first.objects.take k ++ restPart.take (count - k) := by
          rw [hdecomp, List.take_append_eq_append_take,
            List.take_of_length_le (by omega), hkc, List.take_length]
        rw [htake, List.append_assoc]

/-- `DequeueMany` on an invariant state returns the first `count` live
items (everything when fewer exist) with no error; an empty queue is left
untouched. -/
theorem dequeueMany_spec (unm : List Nat → Option α) (q : Queue α)
    (hw : WFQ unm q) (count : Nat) :
    (q.dequeueMany unm count).1 = ((q.liveItems unm).take count, none) ∧
    (q.liveItems unm = [] → (q.dequeueMany unm count).2 = q) := by
  obtain ⟨q1, hloop, hw1, hnil⟩ := Queue.dequeueManyLoop_spec unm count q [] hw
  rw [List.nil_append] at hloop
  by_cases hfull : q1.first.capacity ≤ q1.first.countOnDisk
  · obtain ⟨q2, hadv⟩ := advanceAny_ok unm q1 hw1
    constructor
    · rw [Queue.dequeueMany, hloop]
      simp only [if_pos hfull, hadv]
    · intro hlive
      have hq1 : q1 = q := hnil hlive
      subst hq1
      exact absurd hfull (by
        have h0 := hw.first_empty_notfull
          (first_objects_of_live_nil unm q1 hw hlive)
        omega)
  · constructor
    · rw [Queue.dequeueMany, hloop]
      simp only [if_neg hfull]
    · intro hlive
      rw [Queue.dequeueMany, hloop]
      simp only [if_neg hfull]
      exact hnil hlive

/-! ## Draining and reopening -/

/-- Dequeuing once per live item returns exactly the live items. -/
theorem drain_runTrace (mar : α → Option (List Nat))
    (unm : List Nat → Option α) :
    ∀ (L : List α) (q : Queue α), WFQ unm q → q.liveItems unm = L →
    (runTrace mar unm q (List.replicate L.length Act.deq)).2 = L := by
  intro L
  induction L with
  | nil =>
    intro q hw h
    rfl
  | cons x rest ihL =>
    intro q hw h
    obtain ⟨q', hd, hw', hlive', -⟩ := dequeue_cons unm q hw x rest h
    show (runTrace mar unm q
      (List.replicate (rest.length + 1) Act.deq)).2 = x :: rest
    rw [List.replicate_succ]
    have hr : runTrace mar unm q
        (Act.deq :: List.replicate rest.length Act.deq) =
        ((runTrace mar unm q' (List.replicate rest.length Act.deq)).1,
          [x] ++ (runTrace mar unm q' (List.replicate rest.length Act.deq)).2) := by
      simp only [runTrace, hd]
    rw [hr]
    show [x] ++ _ = x :: rest
    rw [ihL q' hw' hlive']
    rfl

/-- Reopening the folder left by `Close` (possibly with a different
`MaxObjectsPerSegment`) succeeds and reproduces the live items. -/
theorem reopen_spec (unm : List Nat → Option α) (q : Queue α)
    (hw : WFQ unm q) (mo' : Nat) (hmo1 : 1 ≤ mo') (hmo2 : mo' < 4294967296)
    (hbound : q.segmentNumber ≤ 2147483647) :
    ∃ q', loadQueue unm mo' q.folderAfterClose = .ok q' ∧ WFQ unm q' ∧
      q'.liveItems unm = q.liveItems unm := by
  have hbound' : q.last.segmentNumber ≤ 2147483647 := by
    rw [← hw.segnum]; exact hbound
  by_cases hal : q.first.segmentNumber = q.last.segmentNumber
  · -- single active segment
    have hfe := hw.alias_eq hal
    have hfolder : q.folder = [] := by
      have hk := hw.folder_keys
      have h0 : q.last.segmentNumber - q.first.segmentNumber - 1 = 0 := by omega
      rw [h0, List.range'_zero] at hk
      exact List.map_eq_nil.mp hk
    have hfc : q.folderAfterClose =
        [(q.last.segmentNumber, q.last.file)] := by
      rw [Queue.folderAfterClose, hfolder, hfe]
      simp [setFile]
    have hr : loadSegmentRanges [(q.last.segmentNumber, q.last.file)] =
        (q.last.segmentNumber, q.last.segmentNumber, 1) := by
      rw [loadSegmentRanges]
      simp only [List.foldl_cons, List.foldl_nil]
      rw [min_eq_right hbound', Nat.max_eq_right (Nat.zero_le _)]
    have hrf : removeFile [(q.last.segmentNumber, q.last.file)]
        q.last.segmentNumber = [] := by
      simp [removeFile]
    have hload : loadQueue unm mo' q.folderAfterClose =
        .ok ⟨mo', [], q.last, q.last, q.last.segmentNumber⟩ := by
      rw [hfc]
      simp only [loadQueue, hr]
      norm_num
      simp [getFile, hw.last_load, hrf]
    refine ⟨_, hload, ⟨⟨hmo1, hmo2, le_refl _, fun _ => rfl, rfl, ?_,
      hw.last_load, hw.last_load, hw.last_cap_pos, hw.last_cap_pos,
      hw.last_le, hw.last_le, fun h => absurd rfl h, fun h => absurd rfl h,
      ?_⟩, ?_⟩, ?_⟩
    · show ([] : Folder).map Prod.fst = List.range' (q.last.segmentNumber + 1)
        (q.last.segmentNumber - q.last.segmentNumber - 1)
      rw [Nat.sub_self]
      rfl
    · intro p hp
      simp at hp
    · intro h0
      have := hw.first_empty_notfull (by rw [hfe]; exact h0)
      rw [hfe] at this
      exact this
    · rw [Queue.liveItems_alias unm _ rfl, Queue.liveItems_alias unm q hal,
        hfe]
  · -- several segments: head, middles and tail all sit in the folder
    have hlt : q.first.segmentNumber < q.last.segmentNumber :=
      lt_of_le_of_ne hw.seg_le hal
    have hkey_mem : ∀ p ∈ q.folder, q.first.segmentNumber + 1 ≤ p.1 ∧
        p.1 ≤ q.last.segmentNumber - 1 := by
      intro p hp
      have : p.1 ∈ q.folder.map Prod.fst := List.mem_map_of_mem Prod.fst hp
      rw [hw.folder_keys, List.mem_range'] at this
      omega
    have hfn_notmem : q.first.segmentNumber ∉ q.folder.map Prod.fst := by
      rw [hw.folder_keys]
      intro hmem
      rw [List.mem_range'] at hmem
      omega
    have hln_notmem : q.last.segmentNumber ∉ q.folder.map Prod.fst := by
      rw [hw.folder_keys]
      intro hmem
      rw [List.mem_range'] at hmem
      omega
    have hfc : q.folderAfterClose =
        q.folder ++ ([(q.first.segmentNumber, q.first.file)] ++
          [(q.last.segmentNumber, q.last.file)]) := by
      rw [Queue.folderAfterClose,
        setFile_not_mem q.folder q.first.segmentNumber q.first.file hfn_notmem,
        setFile_not_mem _ q.last.segmentNumber q.last.file (by
          rw [List.map_append]
          intro hmem
          rcases List.mem_append.mp hmem with h | h
          · exact hln_notmem h
          · simp at h
            omega),
        List.append_assoc]
    have hfolder_len : q.folder.length =
        q.last.segmentNumber - q.first.segmentNumber - 1 := by
      have := congrArg List.length hw.folder_keys
      rwa [List.length_map, List.length_range'] at this
    have hr : loadSegmentRanges q.folderAfterClose =
        (q.first.segmentNumber, q.last.segmentNumber, q.folder.length + 2) := by
      rw [hfc]
      have hmem1 : (q.first.segmentNumber, q.first.file) ∈
          q.folder ++ ([(q.first.segmentNumber, q.first.file)] ++
            [(q.last.segmentNumber, q.last.file)]) := by simp
      have hmem2 : (q.last.segmentNumber, q.last.file) ∈
          q.folder ++ ([(q.first.segmentNumber, q.first.file)] ++
            [(q.last.segmentNumber, q.last.file)]) := by simp
      have hlen2 : q.folder.length + 2 =
          (q.folder ++ ([(q.first.segmentNumber, q.first.file)] ++
            [(q.last.segmentNumber, q.last.file)])).length := by
        simp
      rw [hlen2]
      refine loadSegmentRanges_eq _ _ _ ⟨_, hmem1, rfl⟩ ?_ (by omega)
        ⟨_, hmem2, rfl⟩ ?_
      · intro p hp
        rcases List.mem_append.mp hp with h | h
        · have := hkey_mem p h
          omega
        · simp at h
          rcases h with rfl | rfl
          · exact le_refl _
          · exact Nat.le_of_lt hlt
      · intro p hp
        rcases List.mem_append.mp hp with h | h
        · have := hkey_mem p h
          omega
        · simp at h
          rcases h with rfl | rfl
          · exact Nat.le_of_lt hlt
          · exact le_refl _
    have hget1 : getFile q.folderAfterClose q.first.segmentNumber =
        some q.first.file := by
      rw [hfc, getFile_append_right _ _ _ hfn_notmem]
      simp [getFile]
    have hget2 : getFile q.folderAfterClose q.last.segmentNumber =
        some q.last.file := by
      rw [hfc, getFile_append_right _ _ _ hln_notmem]
      simp only [List.cons_append, getFile, if_neg hal]
      simp [getFile]
    have hrf : removeFile (removeFile q.folderAfterClose
        q.first.segmentNumber) q.last.segmentNumber = q.folder := by
      rw [hfc, removeFile_append, removeFile_not_mem _ _ hfn_notmem]
      have h1 : removeFile ([(q.first.segmentNumber, q.first.file)] ++
          [(q.last.segmentNumber, q.last.file)]) q.first.segmentNumber =
          [(q.last.segmentNumber, q.last.file)] := by
        simp [removeFile, Ne.symm hal]
      rw [h1, removeFile_append, removeFile_not_mem _ _ hln_notmem]
      simp [removeFile]
    have hcnt0 : ¬ q.folder.length + 2 = 0 := by omega
    have hcnt1 : ¬ q.folder.length + 2 = 1 := by omega
    have hload : loadQueue unm mo' q.folderAfterClose =
        .ok ⟨mo', q.folder, q.first, q.last, q.last.segmentNumber⟩ := by
      simp only [loadQueue, hr, hcnt0, hcnt1, if_false, hget1, hget2,
        hw.first_load, hw.last_load, hrf]
    refine ⟨_, hload, ⟨⟨hmo1, hmo2, hw.seg_le, fun h => absurd h hal, rfl,
      hw.folder_keys, hw.first_load, hw.last_load, hw.first_cap_pos,
      hw.last_cap_pos, hw.first_le, hw.last_le, ?_, ?_, hw.middles⟩, ?_⟩, ?_⟩
    · intro _
      exact hw.first_full_of_ne hal
    · intro _
      exact hw.last_rc hal
    · intro h0
      exact hw.first_empty_notfull h0
    · have hal' : (⟨mo', q.folder, q.first, q.last,
          q.last.segmentNumber⟩ : Queue α).first.segmentNumber ≠
          (⟨mo', q.folder, q.first, q.last,
          q.last.segmentNumber⟩ : Queue α).last.segmentNumber := hal
      rw [Queue.liveItems_ne unm _ hal', Queue.liveItems_ne unm q hal]

/-! ## Codec instance and frame helpers -/

theorem goodMar1 : GoodMar mar1 unm1 := fun x =>
  ⟨[x + 1], rfl, by simp, by simp, rfl⟩

theorem encFrames_nil : encFrames [] = [] := rfl

theorem encFrames_cons (f : Frame) (fs : List Frame) :
    encFrames (f :: fs) = encFrame f ++ encFrames fs := by
  simp [encFrames]

/-- `k` tombstone frames are exactly `4k` zero bytes. -/
theorem encFrames_tombs (k : Nat) :
    encFrames (List.replicate k Frame.tomb) = List.replicate (4 * k) 0 := by
  induction k with
  | zero => rfl
  | succ k ih =>
    rw [List.replicate_succ, encFrames_cons, ih]
    show [0, 0, 0, 0] ++ _ = _
    rw [show 4 * (k + 1) = 4 + 4 * k by ring, List.replicate_add]
    rfl

/-- The frame scan agrees with the payload-level replay. -/
theorem parseFrames_encFrames (unm : List Nat → Option α) (g : List Nat → α)
    (fs : List Frame)
    (hfs : ∀ b, Frame.item b ∈ fs →
      1 ≤ b.length ∧ b.length < 4294967296 ∧ unm b = some (g b)) :
    ∀ (L : List (List Nat)) (rc : Nat),
    parseFrames unm (encFrames fs) (L.map g) rc =
      match framesReplay fs L rc with
      | some (L', rc') => .ok (L'.map g, rc')
      | none => .error .tombstoneNoObjects := by
  induction fs with
  | nil =>
    intro L rc
    rw [encFrames_nil, parseFrames_nil]
    rfl
  | cons f fs ih =>
    intro L rc
    cases f with
    | item b =>
      obtain ⟨hb1, hb2, hbu⟩ := hfs b (List.mem_cons_self _ _)
      rw [encFrames_cons]
      show parseFrames unm (u32le b.length ++ b ++ encFrames fs) _ _ = _
      rw [List.append_assoc,
        parseFrames_item unm hbu hb1 hb2 (encFrames fs) (L.map g) rc]
      have hmap : L.map g ++ [g b] = (L ++ [b]).map g := by simp
      rw [hmap, ih (fun b' hb' => hfs b' (List.mem_cons_of_mem _ hb')) (L ++ [b]) rc]
      rfl
    | tomb =>
      rw [encFrames_cons]
      cases L with
      | nil =>
        show parseFrames unm (0 :: 0 :: 0 :: 0 :: encFrames fs) [] rc = _
        rw [parseFrames_cons4]
        norm_num [leU32]
        rfl
      | cons o t =>
        show parseFrames unm ([0, 0, 0, 0] ++ encFrames fs)
          (g o :: t.map g) rc = _
        rw [parseFrames_tomb unm (encFrames fs) (g o) (t.map g) rc,
          ih (fun b' hb' => hfs b' (List.mem_cons_of_mem _ hb')) t (rc + 1)]
        rfl

/-! ## The claims -/

/-- Claim C3: for every interleaving of single-item `Enqueue` and
successful single-item `Dequeue` calls on one queue (any capacity ≥ 1,
spanning any number of segment rollovers and head advances), the items the
`Dequeue` calls return are exactly a prefix of the enqueued items in
enqueue order (the remainder being exactly the items still live). -/
theorem C3_dequeues_prefix_of_enqueues (mar : α → Option (List Nat))
    (unm : List Nat → Option α) (hgm : GoodMar mar unm) (mo : Nat)
    (hmo1 : 1 ≤ mo) (hmo2 : mo < 4294967296) (acts : List (Act α)) :
    enqueuedOf acts =
      (runTrace mar unm (freshQueue mo) acts).2 ++
        ((runTrace mar unm (freshQueue mo) acts).1).liveItems unm ∧
    ∃ t, enqueuedOf acts = (runTrace mar unm (freshQueue mo) acts).2 ++ t := by
  obtain ⟨-, hlive, -⟩ := runTrace_spec mar unm hgm acts (freshQueue mo)
    (WFQ_fresh unm mo hmo1 hmo2)
  rw [liveItems_fresh unm mo, List.nil_append] at hlive
  exact ⟨hlive, _, hlive⟩

theorem C3_witness : GoodMar mar1 unm1 ∧ (1 ≤ 2 ∧ 2 < 4294967296) ∧
    (enqueuedOf [Act.enq 0, Act.enq 1, Act.deq, Act.enq 2] =
      (runTrace mar1 unm1 (freshQueue 2)
        [Act.enq 0, Act.enq 1, Act.deq, Act.enq 2]).2 ++
        ((runTrace mar1 unm1 (freshQueue 2)
          [Act.enq 0, Act.enq 1, Act.deq, Act.enq 2]).1).liveItems unm1 ∧
      ∃ t, enqueuedOf [Act.enq 0, Act.enq 1, Act.deq, Act.enq 2] =
        (runTrace mar1 unm1 (freshQueue 2)
          [Act.enq 0, Act.enq 1, Act.deq, Act.enq 2]).2 ++ t) :=
  ⟨goodMar1, ⟨by norm_num, by norm_num⟩,
    C3_dequeues_prefix_of_enqueues mar1 unm1 goodMar1 2 (by norm_num)
      (by norm_num) [Act.enq 0, Act.enq 1, Act.deq, Act.enq 2]⟩

/-- Claim C4: after any sequence of successful single-item
enqueues/dequeues followed by `Close`, `NewQueue` on the same folder
succeeds — even with a different `MaxObjectsPerSegment` — and its
subsequent dequeues return exactly the items enqueued but not yet dequeued
before `Close`, in enqueue order.  (The segment-number bound reflects
`strconv.ParseInt`'s 32-bit range in the directory scan; it holds for any
run of fewer than 2^31 rollovers.) -/
theorem C4_close_reopen_roundtrip (mar : α → Option (List Nat))
    (unm : List Nat → Option α) (hgm : GoodMar mar unm) (mo mo' : Nat)
    (hmo1 : 1 ≤ mo) (hmo2 : mo < 4294967296) (hmo1' : 1 ≤ mo')
    (hmo2' : mo' < 4294967296) (acts : List (Act α))
    (hbound : (runTrace mar unm (freshQueue mo) acts).1.segmentNumber ≤
      2147483647) :
    ∃ q' : Queue α,
      loadQueue unm mo'
        ((runTrace mar unm (freshQueue mo) acts).1.folderAfterClose) =
        .ok q' ∧
      q'.liveItems unm =
        ((runTrace mar unm (freshQueue mo) acts).1).liveItems unm ∧
      enqueuedOf acts =
        (runTrace mar unm (freshQueue mo) acts).2 ++ q'.liveItems unm ∧
      (runTrace mar unm q'
        (List.replicate ((q'.liveItems unm).length) Act.deq)).2 =
        q'.liveItems unm := by
  obtain ⟨hwf, hlive, -⟩ := runTrace_spec mar unm hgm acts (freshQueue mo)
    (WFQ_fresh unm mo hmo1 hmo2)
  rw [liveItems_fresh unm mo, List.nil_append] at hlive
  obtain ⟨q', hload, hw', hlive'⟩ :=
    reopen_spec unm _ hwf mo' hmo1' hmo2' hbound
  refine ⟨q', hload, hlive', ?_, drain_runTrace mar unm _ q' hw' rfl⟩
  rw [hlive']
  exact hlive

theorem C4_witness : GoodMar mar1 unm1 ∧
    (runTrace mar1 unm1 (freshQueue 2)
      [Act.enq 0, Act.enq 1, Act.enq 2, Act.deq]).1.segmentNumber ≤
      2147483647 ∧
    (∃ q' : Queue Nat,
      loadQueue unm1 5
        ((runTrace mar1 unm1 (freshQueue 2)
          [Act.enq 0, Act.enq 1, Act.enq 2, Act.deq]).1.folderAfterClose) =
        .ok q' ∧
      q'.liveItems unm1 =
        ((runTrace mar1 unm1 (freshQueue 2)
          [Act.enq 0, Act.enq 1, Act.enq 2, Act.deq]).1).liveItems unm1 ∧
      enqueuedOf [Act.enq 0, Act.enq 1, Act.enq 2, Act.deq] =
        (runTrace mar1 unm1 (freshQueue 2)
          [Act.enq 0, Act.enq 1, Act.enq 2, Act.deq]).2 ++
          q'.liveItems unm1 ∧
      (runTrace mar1 unm1 q'
        (List.replicate ((q'.liveItems unm1).length) Act.deq)).2 =
        q'.liveItems unm1) :=
  ⟨goodMar1, by decide,
    C4_close_reopen_roundtrip mar1 unm1 goodMar1 2 5 (by norm_num)
      (by norm_num) (by norm_num) (by norm_num)
      [Act.enq 0, Act.enq 1, Act.enq 2, Act.deq] (by decide)⟩

/-- Claim C10: `DequeueMany` on a queue with no live items returns an empty
slice and a nil error, leaving the queue untouched — it never surfaces
`ErrEmpty`, unlike `Dequeue`, which returns `ErrEmpty` on an empty queue;
more generally `DequeueMany(n)` returns the first `min n live` items with
no error. -/
theorem C10_dequeueMany_no_empty_error (unm : List Nat → Option α)
    (q : Queue α) (hw : WFQ unm q) (n : Nat) (hn : 1 ≤ n) :
    (q.dequeueMany unm n).1 = ((q.liveItems unm).take n, none) ∧
    (q.liveItems unm = [] →
      (q.dequeueMany unm n).1 = ([], none) ∧
      (q.dequeueMany unm n).2 = q ∧
      q.dequeue unm = ((none, some .empty), q)) := by
  obtain ⟨h1, h2⟩ := dequeueMany_spec unm q hw n
  refine ⟨h1, fun hl => ⟨?_, h2 hl, dequeue_empty unm q hw hl⟩⟩
  rw [h1, hl]
  simp

theorem C10_witness : WFQ unm1 (freshQueue 2 : Queue Nat) ∧ 1 ≤ 1 ∧
    (((freshQueue 2 : Queue Nat).dequeueMany unm1 1).1 =
      (((freshQueue 2 : Queue Nat).liveItems unm1).take 1, none) ∧
    ((freshQueue 2 : Queue Nat).liveItems unm1 = [] →
      ((freshQueue 2 : Queue Nat).dequeueMany unm1 1).1 = ([], none) ∧
      ((freshQueue 2 : Queue Nat).dequeueMany unm1 1).2 = freshQueue 2 ∧
      (freshQueue 2 : Queue Nat).dequeue unm1 =
        ((none, some .empty), freshQueue 2))) :=
  ⟨WFQ_fresh unm1 2 (by norm_num) (by norm_num), le_refl 1,
    C10_dequeueMany_no_empty_error unm1 (freshQueue 2)
      (WFQ_fresh unm1 2 (by norm_num) (by norm_num)) 1 (le_refl 1)⟩

/-- Claim C9: the tail never overflows: in `Enqueue` the rollover check
runs before the append, so immediately before the item is appended the
tail satisfies `count + removeCount < capacity`; in every `EnqueueMany`
iteration a non-empty batch is appended only when the computed room is
positive, i.e. the tail is strictly below capacity; and consequently on
every reachable state no segment holds more than `capacity` item frames
(live plus tombstoned) on disk. -/
theorem C9_tail_never_overflows (mar : α → Option (List Nat))
    (unm : List Nat → Option α) (hgm : GoodMar mar unm) (mo : Nat)
    (hmo1 : 1 ≤ mo) (hmo2 : mo < 4294967296) (acts : List (Act α)) :
    (∀ q : Queue α, 1 ≤ q.maxObjectsPerSegment →
      ((if q.last.capacity ≤ q.last.countOnDisk then q.addSegmentLocked
        else q).last).countOnDisk <
      ((if q.last.capacity ≤ q.last.countOnDisk then q.addSegmentLocked
        else q).last).capacity) ∧
    (∀ (q : Queue α) (items : List α), 0 < q.enqueueCount items →
      q.last.countOnDisk < q.last.capacity) ∧
    ((runTrace mar unm (freshQueue mo) acts).1.first.countOnDisk ≤
      (runTrace mar unm (freshQueue mo) acts).1.first.capacity ∧
     (runTrace mar unm (freshQueue mo) acts).1.last.countOnDisk ≤
      (runTrace mar unm (freshQueue mo) acts).1.last.capacity ∧
     ∀ p ∈ (runTrace mar unm (freshQueue mo) acts).1.folder,
       ∃ s : Segment α, Segment.load unm p.1 p.2 = .ok s ∧
         s.countOnDisk ≤ s.capacity) := by
  obtain ⟨hwf, -, -⟩ := runTrace_spec mar unm hgm acts (freshQueue mo)
    (WFQ_fresh unm mo hmo1 hmo2)
  refine ⟨?_, ?_, hwf.first_le, hwf.last_le, ?_⟩
  · intro q h
    by_cases hfull : q.last.capacity ≤ q.last.countOnDisk
    · rw [if_pos hfull]
      show (Segment.newSegment q.maxObjectsPerSegment
        (q.segmentNumber + 1) : Segment α).countOnDisk <
        (Segment.newSegment q.maxObjectsPerSegment
          (q.segmentNumber + 1) : Segment α).capacity
      rw [countOnDisk_newSegment]
      exact h
    · rw [if_neg hfull]
      omega
  · intro q items h
    rw [Queue.enqueueCount] at h
    have := lt_min_iff.mp h
    omega
  · intro p hp
    obtain ⟨s, hs1, hs2, hs3, -⟩ := hwf.middles p hp
    refine ⟨s, hs1, ?_⟩
    rw [Segment.countOnDisk, hs2, hs3]
    omega

theorem C9_witness : GoodMar mar1 unm1 ∧ (1 ≤ 2 ∧ 2 < 4294967296) ∧
    ((∀ q : Queue Nat, 1 ≤ q.maxObjectsPerSegment →
      ((if q.last.capacity ≤ q.last.countOnDisk then q.addSegmentLocked
        else q).last).countOnDisk <
      ((if q.last.capacity ≤ q.last.countOnDisk then q.addSegmentLocked
        else q).last).capacity) ∧
    (∀ (q : Queue Nat) (items : List Nat), 0 < q.enqueueCount items →
      q.last.countOnDisk < q.last.capacity) ∧
    ((runTrace mar1 unm1 (freshQueue 2) [Act.enq 0, Act.enq 1, Act.enq 2]).1.first.countOnDisk ≤
      (runTrace mar1 unm1 (freshQueue 2) [Act.enq 0, Act.enq 1, Act.enq 2]).1.first.capacity ∧
     (runTrace mar1 unm1 (freshQueue 2) [Act.enq 0, Act.enq 1, Act.enq 2]).1.last.countOnDisk ≤
      (runTrace mar1 unm1 (freshQueue 2) [Act.enq 0, Act.enq 1, Act.enq 2]).1.last.capacity ∧
     ∀ p ∈ (runTrace mar1 unm1 (freshQueue 2) [Act.enq 0, Act.enq 1, Act.enq 2]).1.folder,
       ∃ s : Segment Nat, Segment.load unm1 p.1 p.2 = .ok s ∧
         s.countOnDisk ≤ s.capacity)) :=
  ⟨goodMar1, ⟨by norm_num, by norm_num⟩,
    C9_tail_never_overflows mar1 unm1 goodMar1 2 (by norm_num) (by norm_num)
      [Act.enq 0, Act.enq 1, Act.enq 2]⟩

/-- Claim C5: advancing a drained head (`closeFullFirstSegment`) with
K = `segmentCount` taken before the head file is deleted: K = 1 — a fresh
segment numbered old-tail-number + 1 becomes both head and tail and the
queue's segment counter is bumped; K = 2 — the tail instance becomes the
head, tail and counter unchanged; K ≥ 3 — segment `head.segmentNumber + 1`
is loaded from disk and becomes the head (leaving the folder), tail and
counter unchanged. -/
theorem C5_advance_head_cases (unm : List Nat → Option α) (q : Queue α)
    (hseg : q.segmentNumber = q.last.segmentNumber) :
    (q.segmentCount = 1 →
      q.closeFullFirstSegment unm = (none,
        ⟨q.maxObjectsPerSegment, q.folder,
          Segment.newSegment q.maxObjectsPerSegment (q.last.segmentNumber + 1),
          Segment.newSegment q.maxObjectsPerSegment (q.last.segmentNumber + 1),
          q.last.segmentNumber + 1⟩)) ∧
    (q.segmentCount = 2 →
      q.closeFullFirstSegment unm = (none,
        ⟨q.maxObjectsPerSegment, q.folder, q.last, q.last,
          q.segmentNumber⟩)) ∧
    (∀ (f : List Nat) (s : Segment α), 3 ≤ q.segmentCount →
      getFile q.folder (q.first.segmentNumber + 1) = some f →
      Segment.load unm (q.first.segmentNumber + 1) f = .ok s →
      q.closeFullFirstSegment unm = (none,
        ⟨q.maxObjectsPerSegment,
          removeFile q.folder (q.first.segmentNumber + 1), s, q.last,
          q.segmentNumber⟩)) := by
  refine ⟨?_, ?_, ?_⟩
  · intro h1
    rw [Queue.closeFullFirstSegment, if_pos h1, hseg]
  · intro h2
    rw [Queue.closeFullFirstSegment, if_neg (by omega), if_pos h2]
  · intro f s h3 hget hload
    rw [Queue.closeFullFirstSegment, if_neg (by omega), if_neg (by omega)]
    simp only [hget, hload]

theorem C5_witness :
    (freshQueue 2 : Queue Nat).segmentNumber =
      (freshQueue 2 : Queue Nat).last.segmentNumber ∧
    (((freshQueue 2 : Queue Nat).segmentCount = 1 →
      (freshQueue 2 : Queue Nat).closeFullFirstSegment unm1 = (none,
        ⟨2, [], Segment.newSegment 2 2, Segment.newSegment 2 2, 2⟩)) ∧
    ((freshQueue 2 : Queue Nat).segmentCount = 2 →
      (freshQueue 2 : Queue Nat).closeFullFirstSegment unm1 = (none,
        ⟨2, [], (freshQueue 2 : Queue Nat).last,
          (freshQueue 2 : Queue Nat).last, 1⟩)) ∧
    (∀ (f : List Nat) (s : Segment Nat),
      3 ≤ (freshQueue 2 : Queue Nat).segmentCount →
      getFile [] ((freshQueue 2 : Queue Nat).first.segmentNumber + 1) =
        some f →
      Segment.load unm1
        ((freshQueue 2 : Queue Nat).first.segmentNumber + 1) f = .ok s →
      (freshQueue 2 : Queue Nat).closeFullFirstSegment unm1 = (none,
        ⟨2, removeFile []
          ((freshQueue 2 : Queue Nat).first.segmentNumber + 1), s,
          (freshQueue 2 : Queue Nat).last, 1⟩))) :=
  ⟨rfl, C5_advance_head_cases unm1 (freshQueue 2) rfl⟩

/-- Claim C6: `removeMany(n)` for `n ≥ 1`: on an empty live list it fails
(`errEmptySegment`) leaving the state and file unchanged; otherwise it pops
the first `K = min n live` items, returns them in insertion order, appends
exactly `4K` zero bytes — the encoding of `K` tombstone frames — in one
block, and adds `K` to `removeCount`. -/
theorem C6_removeMany_behaviour (s : Segment α) (n : Nat) (hn : 1 ≤ n) :
    (s.objects = [] → s.removeMany n = none) ∧
    (s.objects ≠ [] →
      s.removeMany n = some (s.objects.take (min n s.objects.length),
        ⟨s.capacity, s.segmentNumber,
          s.objects.drop (min n s.objects.length),
          s.removeCount + min n s.objects.length,
          s.file ++
            encFrames (List.replicate (min n s.objects.length)
              Frame.tomb)⟩)) ∧
    (∀ k : Nat,
      encFrames (List.replicate k Frame.tomb) = List.replicate (4 * k) 0) := by
  refine ⟨Segment.removeMany_nil s n, ?_, encFrames_tombs⟩
  intro hne
  rw [Segment.removeMany_ne s n hne, encFrames_tombs]

theorem C6_witness : 1 ≤ 2 ∧
    (((⟨4, 7, [10, 11, 12], 1, [4, 0, 0, 0]⟩ : Segment Nat).objects = [] →
      (⟨4, 7, [10, 11, 12], 1, [4, 0, 0, 0]⟩ : Segment Nat).removeMany 2 =
        none) ∧
    ((⟨4, 7, [10, 11, 12], 1, [4, 0, 0, 0]⟩ : Segment Nat).objects ≠ [] →
      (⟨4, 7, [10, 11, 12], 1, [4, 0, 0, 0]⟩ : Segment Nat).removeMany 2 =
        some ([10, 11, 12].take (min 2 3),
          ⟨4, 7, ([10, 11, 12] : List Nat).drop (min 2 3), 1 + min 2 3,
            [4, 0, 0, 0] ++
              encFrames (List.replicate (min 2 3) Frame.tomb)⟩)) ∧
    (∀ k : Nat,
      encFrames (List.replicate k Frame.tomb) = List.replicate (4 * k) 0)) :=
  ⟨by norm_num,
    C6_removeMany_behaviour (⟨4, 7, [10, 11, 12], 1, [4, 0, 0, 0]⟩ :
      Segment Nat) 2 (by norm_num)⟩

set_option synthInstance.maxSize 5000 in
set_option maxRecDepth 8000 in
/-- Claim C7: capacity persistence: `newSegment` writes the capacity as the
4-byte little-endian file header, `load` reads it back into the in-memory
`capacity` field, and — concretely, replaying the §8 capacity-change
scenario with `MaxObjectsPerSegment` 2 before `Close` and 5 after — the
reopened segments keep capacity 2 while segments created after the reopen
use 5, with exactly the §8 dequeue results. -/
theorem C7_capacity_persistence (unm : List Nat → Option α)
    (cap n m : Nat) (hcap : cap < 4294967296) (body : List Nat)
    (s : Segment α)
    (hload : Segment.load unm m (u32le cap ++ body) = .ok s) :
    (Segment.newSegment cap n : Segment α).file = u32le cap ∧
    s.capacity = cap ∧
    (loadQueue unm1 5
      (((freshQueue 2 : Queue Nat).enqueueMany mar1
        [0, 1, 2, 3, 4]).2.folderAfterClose)).toOption.map
      (fun c2 =>
        (c2.first.capacity, c2.last.capacity, c2.maxObjectsPerSegment,
         (c2.dequeueMany unm1 2).1,
         let c3 := ((c2.dequeueMany unm1 2).2.enqueueMany mar1
           [5, 6, 7, 8, 9]).2
         (c3.last.capacity,
          (c3.dequeueMany unm1 4).1,
          let c4 := (c3.dequeueMany unm1 4).2
          ((c4.dequeueMany unm1 3).1,
           ((c4.dequeueMany unm1 3).2.dequeueMany unm1 2).1)))) =
      some (2, 2, 5, ([0, 1], none), 5, ([2, 3, 4, 5], none),
        ([6, 7, 8], none), [9], none) := by
  refine ⟨rfl, ?_, by
    simp only [← Queue.dequeueManyF_eq, ← loadQueueF_eq]
    decide⟩
  have hshape : u32le cap ++ body = cap % 256 :: cap / 256 % 256 ::
      cap / 65536 % 256 :: cap / 16777216 % 256 :: body := rfl
  rw [hshape] at hload
  simp only [Segment.load] at hload
  rcases hp : parseFrames unm body ([] : List α) 0 with e | ⟨objs0, rc0⟩
  · rw [hp] at hload
    exact absurd hload (by simp)
  · rw [hp] at hload
    have hs := (by simpa using hload.symm :
      s = ⟨leU32 (cap % 256) (cap / 256 % 256) (cap / 65536 % 256)
        (cap / 16777216 % 256), m, objs0, rc0, cap % 256 :: cap / 256 % 256 ::
        cap / 65536 % 256 :: cap / 16777216 % 256 :: body⟩)
    rw [hs]
    exact leU32_u32le cap hcap

/-- Claim C8: a tombstone frame met while the reconstructed live list is
empty makes `load` fail with the corrupt-segment error, and a queue whose
folder holds such a file fails to open; on any frame-aligned file free of
excess tombstones, `load` succeeds and reconstructs `objects` and
`removeCount` exactly (as the replay of the frames). -/
theorem C8_load_reconstruction (unm : List Nat → Option α)
    (g : List Nat → α) (n cap : Nat) (hcap : cap < 4294967296)
    (fs : List Frame)
    (hfs : ∀ b, Frame.item b ∈ fs →
      1 ≤ b.length ∧ b.length < 4294967296 ∧ unm b = some (g b)) :
    (Segment.load unm n (u32le cap ++ encFrames fs) =
      match framesReplay fs [] 0 with
      | some (live, rc) =>
        .ok ⟨cap, n, live.map g, rc, u32le cap ++ encFrames fs⟩
      | none => .error .tombstoneNoObjects) ∧
    (∀ (mo n' : Nat) (f : List Nat) (e : LoadErr), n' ≤ 2147483647 →
      Segment.load unm n' f = .error e →
      loadQueue unm mo [(n', f)] = .error .corrupt) := by
  constructor
  · have hshape : u32le cap ++ encFrames fs = cap % 256 :: cap / 256 % 256 ::
        cap / 65536 % 256 :: cap / 16777216 % 256 :: encFrames fs := rfl
    rw [hshape]
    show (match parseFrames unm (encFrames fs) [] 0 with
      | .error e => Except.error e
      | .ok (objs, rc) =>
        .ok ⟨leU32 (cap % 256) (cap / 256 % 256) (cap / 65536 % 256)
          (cap / 16777216 % 256), n, objs, rc, cap % 256 :: cap / 256 % 256 ::
          cap / 65536 % 256 :: cap / 16777216 % 256 :: encFrames fs⟩ :
        Except LoadErr (Segment α)) = _
    have h0 : ([] : List α) = ([] : List (List Nat)).map g := rfl
    rw [h0, parseFrames_encFrames unm g fs hfs [] 0, leU32_u32le cap hcap]
    rcases framesReplay fs [] 0 with - | ⟨live, rc⟩
    · rfl
    · rfl
  · intro mo n' f e hble hload
    rw [loadQueue]
    have hr : loadSegmentRanges [(n', f)] = (n', n', 1) := by
      rw [loadSegmentRanges]
      show (min 2147483647 n', max 0 n', 1) = _
      rw [min_eq_right hble, Nat.max_eq_right (Nat.zero_le n')]
    rw [hr]
    show (match getFile [(n', f)] n' with
      | none => Except.error QErr.io
      | some f' =>
        match Segment.load unm n' f' with
        | .error _ => Except.error QErr.corrupt
        | .ok s => Except.ok ⟨mo, removeFile [(n', f)] n', s, s, n'⟩ :
        Except QErr (Queue α)) = _
    rw [show getFile [(n', f)] n' = some f from by simp [getFile]]
    show (match Segment.load unm n' f with
      | Except.error _ => Except.error QErr.corrupt
      | Except.ok s => Except.ok (⟨mo, removeFile [(n', f)] n', s, s, n'⟩ :
        Queue α) : Except QErr (Queue α)) = Except.error QErr.corrupt
    rw [hload]

theorem C8_witness :
    ((10 : Nat) < 4294967296 ∧
     ∀ b, Frame.item b ∈ [Frame.item [5], Frame.tomb, Frame.item [7]] →
       1 ≤ b.length ∧ b.length < 4294967296 ∧
         unm1 b = some (b.headD 1 - 1)) ∧
    ((Segment.load unm1 3
      (u32le 10 ++ encFrames [Frame.item [5], Frame.tomb, Frame.item [7]]) =
      match framesReplay [Frame.item [5], Frame.tomb, Frame.item [7]] [] 0 with
      | some (live, rc) =>
        .ok ⟨10, 3, live.map (fun b => b.headD 1 - 1), rc,
          u32le 10 ++
            encFrames [Frame.item [5], Frame.tomb, Frame.item [7]]⟩
      | none => .error .tombstoneNoObjects) ∧
    (∀ (mo n' : Nat) (f : List Nat) (e : LoadErr), n' ≤ 2147483647 →
      Segment.load unm1 n' f = .error e →
      loadQueue unm1 mo [(n', f)] = .error .corrupt)) :=
  ⟨⟨by norm_num, by
      intro b hb
      simp at hb
      rcases hb with rfl | rfl
      · exact ⟨by norm_num, by norm_num, rfl⟩
      · exact ⟨by norm_num, by norm_num, rfl⟩⟩,
    C8_load_reconstruction unm1 (fun b => b.headD 1 - 1) 3 10 (by norm_num)
      [Frame.item [5], Frame.tomb, Frame.item [7]] (by
        intro b hb
        simp at hb
        rcases hb with rfl | rfl
        · exact ⟨by norm_num, by norm_num, rfl⟩
        · exact ⟨by norm_num, by norm_num, rfl⟩)⟩

/-- Claim C1: the claim that `DequeueMany` advances the head only when it
is drained (`count = 0` as well as full on disk) is refuted by the code:
`DequeueMany`'s final advance checks only `countOnDisk ≥ capacity`.  With
capacity 2, after `Enqueue 0; Enqueue 1`, the single head segment holds
the live items `[0, 1]` and is full on disk; `DequeueMany 1` removes item
0, leaving `count = 1 ≠ 0`, yet still advances — deleting the head file
that holds the live item 1, which is lost (the queue ends empty at a fresh
segment 2). -/
theorem C1_dequeueMany_advances_undrained_head :
    ((((freshQueue 2 : Queue Nat).enqueue mar1 0).2.enqueue mar1
        1).2.liveItems unm1 = [0, 1] ∧
      ((((freshQueue 2 : Queue Nat).enqueue mar1 0).2.enqueue mar1
        1).2.first.count = 2 ∧
       (((freshQueue 2 : Queue Nat).enqueue mar1 0).2.enqueue mar1
        1).2.first.capacity = 2 ∧
       (((freshQueue 2 : Queue Nat).enqueue mar1 0).2.enqueue mar1
        1).2.first.countOnDisk = 2)) ∧
    (((((freshQueue 2 : Queue Nat).enqueue mar1 0).2.enqueue mar1
        1).2.first.removeMany 1).map
      (fun rs => (rs.1, rs.2.count, rs.2.capacity, rs.2.countOnDisk)) =
      some ([0], 1, 2, 2)) ∧
    (((((freshQueue 2 : Queue Nat).enqueue mar1 0).2.enqueue mar1
        1).2.dequeueMany unm1 1).1 = ([0], none) ∧
     ((((freshQueue 2 : Queue Nat).enqueue mar1 0).2.enqueue mar1
        1).2.dequeueMany unm1 1).2.first.segmentNumber = 2 ∧
     ((((freshQueue 2 : Queue Nat).enqueue mar1 0).2.enqueue mar1
        1).2.dequeueMany unm1 1).2.liveItems unm1 = []) := by
  simp only [← Queue.dequeueManyF_eq]
  decide

/-- Claim C2: batch/single equivalence is refuted by the code: with
capacity 2, after `Enqueue 0; Enqueue 1`, the batch path `DequeueMany 1`
followed by `Dequeue` returns item 0 and then `ErrEmpty` (item 1 was lost
with the deleted head file), while the single-call path `Dequeue; Dequeue`
returns item 0 and then item 1 — so `DequeueMany 1` is not observationally
equivalent to one `Dequeue`. -/
theorem C2_batch_single_divergence :
    (((((freshQueue 2 : Queue Nat).enqueue mar1 0).2.enqueue mar1
        1).2.dequeueMany unm1 1).1 = ([0], none) ∧
     (((((freshQueue 2 : Queue Nat).enqueue mar1 0).2.enqueue mar1
        1).2.dequeueMany unm1 1).2.dequeue unm1).1 = (none, some .empty)) ∧
    (((((freshQueue 2 : Queue Nat).enqueue mar1 0).2.enqueue mar1
        1).2.dequeue unm1).1 = (some 0, none) ∧
     (((((freshQueue 2 : Queue Nat).enqueue mar1 0).2.enqueue mar1
        1).2.dequeue unm1).2.dequeue unm1).1 = (some 1, none)) ∧
    (((((freshQueue 2 : Queue Nat).enqueue mar1 0).2.enqueue mar1
        1).2.dequeueMany unm1 1).2.dequeue unm1).1 ≠
      (((((freshQueue 2 : Queue Nat).enqueue mar1 0).2.enqueue mar1
        1).2.dequeue unm1).2.dequeue unm1).1 := by
  simp only [← Queue.dequeueManyF_eq, ← Queue.dequeueF_eq]
  decide

theorem C7_witness : (7 : Nat) < 4294967296 ∧
    Segment.load unm1 2 (u32le 7 ++ ([] : List Nat)) =
      .ok (⟨7, 2, [], 0, u32le 7 ++ []⟩ : Segment Nat) ∧
    ((Segment.newSegment 7 1 : Segment Nat).file = u32le 7 ∧
     (⟨7, 2, [], 0, u32le 7 ++ []⟩ : Segment Nat).capacity = 7 ∧
     (loadQueue unm1 5
       (((freshQueue 2 : Queue Nat).enqueueMany mar1
         [0, 1, 2, 3, 4]).2.folderAfterClose)).toOption.map
       (fun c2 =>
         (c2.first.capacity, c2.last.capacity, c2.maxObjectsPerSegment,
          (c2.dequeueMany unm1 2).1,
          let c3 := ((c2.dequeueMany unm1 2).2.enqueueMany mar1
            [5, 6, 7, 8, 9]).2
          (c3.last.capacity,
           (c3.dequeueMany unm1 4).1,
           let c4 := (c3.dequeueMany unm1 4).2
           ((c4.dequeueMany unm1 3).1,
            ((c4.dequeueMany unm1 3).2.dequeueMany unm1 2).1)))) =
       some (2, 2, 5, ([0, 1], none), 5, ([2, 3, 4, 5], none),
         ([6, 7, 8], none), [9], none)) := by
  have hload : Segment.load unm1 2 (u32le 7 ++ ([] : List Nat)) =
      .ok (⟨7, 2, [], 0, u32le 7 ++ []⟩ : Segment Nat) := by
    rw [← Segment.loadF_eq]
    rfl
  exact ⟨by norm_num, hload,
    C7_capacity_persistence unm1 7 1 2 (by norm_num) [] _ hload⟩

end Koyori
